import Mathlib

/-!
# Monkey HTTP server: the connection scheduler (`src/mk_scheduler.c`)

A shallow embedding of the scheduler of `mk_scheduler.c` and
`include/monkey/mk_scheduler.h`: the fair balancer (`_next_target`,
`mk_sched_next_target`), the per-worker connection index
(`mk_sched_add_connection`, `mk_sched_get_connection`,
`mk_sched_remove_client`), the drop primitive (`mk_sched_drop_connection`),
the timeout sweep (`mk_sched_check_timeouts`) and the event handlers
(`mk_sched_event_read`, `mk_sched_event_write`, `mk_sched_event_close`).

Conventions.
* `unsigned long long` counters are natural numbers below `2 ^ 64`; every
  subtraction and increment wraps modulo `2 ^ 64` as in C.
* Descriptors and times are integers.
* Calls into collaborators whose code is not part of `mk_scheduler.c` (event
  loop, sockets, plugins, HTTP sessions, allocator) are recorded, in program
  order, as a list of `sched_step`s.
-/

namespace MkSched

/-! ## Data model (`mk_scheduler.h`) -/

/-- The event-kind tag stored in `event.type`; the scheduler only ever writes
`MK_EVENT_CONNECTION`. -/
inductive mk_event_type where
  | MK_EVENT_NOTIFICATION
  | MK_EVENT_LISTENER
  | MK_EVENT_CONNECTION
  deriving DecidableEq, Repr

/-- The readiness mask stored in `event.mask`. -/
inductive mk_event_mask where
  | MK_EVENT_EMPTY
  | MK_EVENT_READ
  | MK_EVENT_WRITE
  deriving DecidableEq, Repr

/-- The `struct mk_event`, the registration embedded in a connection record. -/
structure mk_event where
  fd : Int
  type : mk_event_type
  mask : mk_event_mask
  deriving DecidableEq, Repr

/-- Constant `#define MK_SCHEDULER_CONN_AVAILABLE -1`. -/
def MK_SCHEDULER_CONN_AVAILABLE : Int := -1

/-- Constant `#define MK_SCHEDULER_CONN_PENDING 0`. -/
def MK_SCHEDULER_CONN_PENDING : Int := 0

/-- Constant `#define MK_SCHEDULER_CONN_PROCESS 1`. -/
def MK_SCHEDULER_CONN_PROCESS : Int := 1

/-- Constant `#define MK_SCHEDULER_FAIR_BALANCING 0`. -/
def MK_SCHEDULER_FAIR_BALANCING : Int := 0

/-- Constant `#define MK_SCHEDULER_REUSEPORT 1`. -/
def MK_SCHEDULER_REUSEPORT : Int := 1

/-- The `struct mk_sched_conn`: the list and tree links (`_head`, `status_queue`,
`_rb_head`) are represented by the containers that hold the record. -/
structure mk_sched_conn where
  event : mk_event
  status : Int
  arrive_time : Int
  deriving DecidableEq, Repr

/-- Colour bit of a `struct rb_node`. -/
inductive rb_color where
  | RB_RED
  | RB_BLACK
  deriving DecidableEq, Repr

/-- A tree of `struct rb_node`s, each embedded in the connection record that
`container_of(node, struct mk_sched_conn, _rb_head)` recovers. `nil` is the
`NULL` link. -/
inductive rb_node where
  | nil : rb_node
  | node (color : rb_color) (rb_left : rb_node) (conn : mk_sched_conn) (rb_right : rb_node) : rb_node
  deriving DecidableEq, Repr

/-- One registration of the worker's event loop: the descriptor, the kind tag,
the mask and the payload record passed to `mk_event_add`. -/
structure mk_event_reg where
  fd : Int
  type : mk_event_type
  mask : mk_event_mask
  data : Option mk_sched_conn
  deriving DecidableEq, Repr

/-- The `struct sched_list_node`, the per-worker state. `loop` lists the
registrations of the worker's event loop, `rb_queue` is the connection index
and `incoming_queue` lists the records linked through `status_queue`. -/
structure sched_list_node where
  loop : List mk_event_reg
  accepted_connections : Nat
  closed_connections : Nat
  over_capacity : Nat
  rb_queue : rb_node
  incoming_queue : List mk_sched_conn
  idx : Int
  initialized : Nat
  signal_channel_r : Int
  signal_channel_w : Int
  deriving DecidableEq, Repr

/-- The fields of `mk_config` that the scheduler reads. `server_capacity` is
the value the comparison in `_next_target` sees after the usual arithmetic
conversion to `unsigned long long`. -/
structure mk_server_config where
  workers : Nat
  server_capacity : Nat
  timeout : Int
  keep_alive_timeout : Int
  scheduler_mode : Int
  deriving DecidableEq, Repr

/-! ## Machine arithmetic -/

/-- Modulus of `unsigned long long`. -/
def ULLONG_MODULUS : Nat := 2 ^ 64

/-- Subtraction of two `unsigned long long` values. -/
def ull_sub (a b : Nat) : Nat :=
  (a % ULLONG_MODULUS + ULLONG_MODULUS - b % ULLONG_MODULUS) % ULLONG_MODULUS

/-- The post-increment `x++` of an `unsigned long long`. -/
def ull_incr (a : Nat) : Nat := (a + 1) % ULLONG_MODULUS

/-- Conversion of an integer value to `int` (two's complement, 32 bits). -/
def to_int (x : Int) : Int := (x + 2 ^ 31) % 2 ^ 32 - 2 ^ 31

/-- Conversion of an integer value to `short int` (two's complement, 16 bits). -/
def to_short (x : Int) : Int := (x + 2 ^ 15) % 2 ^ 16 - 2 ^ 15

/-! ## Balancer (`_next_target`, `mk_sched_next_target`) -/

/-- The expression `sched_list[i].accepted_connections -
sched_list[i].closed_connections`. -/
def live_connections (s : sched_list_node) : Nat :=
  ull_sub s.accepted_connections s.closed_connections

/-- The `for (i = 1; i < mk_config->workers; i++)` loop of `_next_target`:
`rest` holds the entries `sched_list[i..]`, and the pair returned is
`(target, cur)` at loop exit. -/
def next_target_loop : List sched_list_node → Nat → Nat → Nat → Nat × Nat
  | [], _, target, cur => (target, cur)
  | s :: rest, i, target, cur =>
    let tmp := live_connections s
    if tmp < cur then
      if tmp = 0 then (i, tmp)
      else next_target_loop rest (i + 1) i tmp
    else next_target_loop rest (i + 1) target cur

/-- The function `static inline int _next_target()`. The worker table
`sched_list` has `mk_config->workers` entries (`mk_sched_init`), at least one,
since the function starts by reading `sched_list[0]`; `-1` is the refusal
value. -/
def _next_target (sched_list : List sched_list_node) (server_capacity : Nat) : Int :=
  match sched_list with
  | [] => 0
  | s0 :: rest =>
    let cur := live_connections s0
    if cur = 0 then 0
    else
      let r := next_target_loop rest 1 0 cur
      if r.2 ≥ server_capacity then -1
      else (r.1 : Int)

/-- The function `struct sched_list_node *mk_sched_next_target()`: the pointer
`&sched_list[t]` is represented by the index `t`, `NULL` by `none`. -/
def mk_sched_next_target (sched_list : List sched_list_node) (server_capacity : Nat) :
    Option Nat :=
  let t := _next_target sched_list server_capacity
  if t ≠ -1 then some t.toNat else none

/-- A zeroed `struct sched_list_node`, as `mk_mem_malloc_z` leaves it. -/
def sched_list_node_zero : sched_list_node :=
  { loop := [], accepted_connections := 0, closed_connections := 0, over_capacity := 0,
    rb_queue := rb_node.nil, incoming_queue := [], idx := 0, initialized := 0,
    signal_channel_r := 0, signal_channel_w := 0 }

/-- The function `mk_sched_init`: allocates the zeroed worker table, one entry per worker. -/
def mk_sched_init (cfg : mk_server_config) : List sched_list_node :=
  List.replicate cfg.workers sched_list_node_zero

/-- The local variable `capacity` that `mk_sched_register_thread` computes
under the comment "Set worker capacity based on Scheduler Balancing mode". -/
def register_thread_capacity (cfg : mk_server_config) : Nat :=
  if cfg.scheduler_mode = MK_SCHEDULER_FAIR_BALANCING then
    cfg.server_capacity / cfg.workers
  else cfg.server_capacity

/-- The function `mk_sched_register_thread` for the worker that receives id `wid`: the
entry gets its index (`idx` is a `short int`), an empty tree (`RB_ROOT`) and an
empty incoming queue. Returns `sl->idx` and the updated entry. -/
def mk_sched_register_thread (sl : sched_list_node) (wid : Nat) : Int × sched_list_node :=
  let sl1 := { sl with idx := to_short (wid : Int) }
  let sl2 := { sl1 with rb_queue := rb_node.nil, incoming_queue := [] }
  (sl2.idx, sl2)

/-- A worker entry with the given counters and nothing else. -/
def worker_with (accepted closed : Nat) : sched_list_node :=
  { sched_list_node_zero with accepted_connections := accepted, closed_connections := closed }

/-! ## Steps recorded in program order -/

/-- One observable step of a scheduler function: a call into a collaborator
(named after the function called) or a write to the worker entry. -/
inductive sched_step where
  | mk_http_session_remove (fd : Int)
  | mk_http_session_create (fd : Int)
  | mk_sched_get_connection (fd : Int)
  | mk_event_del (fd : Int)
  | mk_event_add (fd : Int) (mask : mk_event_mask)
  | mk_plugin_stage_run_10 (fd : Int)
  | mk_plugin_stage_run_50 (fd : Int)
  | mk_plugin_event_close (fd : Int)
  | mk_plugin_event_error (fd : Int)
  | mk_plugin_event_timeout (fd : Int)
  | mk_http_handler_read (fd : Int)
  | mk_http_handler_write (fd : Int)
  | mk_http_parser_call (fd : Int)
  | mk_http_request_init (fd : Int)
  | mk_http_status_completed (fd : Int)
  | mk_channel_write (fd : Int)
  | mk_http_request_end (fd : Int)
  | closed_connections_incr
  | rb_link_node (fd : Int)
  | rb_insert_color (fd : Int)
  | rb_erase (fd : Int)
  | mk_mem_malloc (fd : Int)
  | mk_mem_free (fd : Int)
  | mk_socket_close (fd : Int)
  | mk_bug
  deriving DecidableEq, Repr

/-! ## Connection index: the tree library (`mk_rbtree`) -/

open rb_color rb_node

/-- The records of a tree from left to right. -/
def rb_inorder : rb_node → List mk_sched_conn
  | nil => []
  | node _ l x r => rb_inorder l ++ x :: rb_inorder r

/-- Number of records linked in a tree. -/
def rb_size (t : rb_node) : Nat := (rb_inorder t).length

/-- The descriptors of a tree from left to right. -/
def rb_fds (t : rb_node) : List Int := (rb_inorder t).map (fun c => c.event.fd)

/-- A tree is ordered as a search tree on `event.fd`: read from left to right
its descriptors strictly increase (so they are pairwise distinct). -/
def rb_ordered (t : rb_node) : Prop := List.Pairwise (fun a b => a < b) (rb_fds t)

instance (t : rb_node) : Decidable (rb_ordered t) := by
  unfold rb_ordered; infer_instance

/-- Sets the colour of the root node. -/
def rb_paint (c : rb_color) : rb_node → rb_node
  | nil => nil
  | node _ l x r => node c l x r

/-- True for a non-empty tree whose root is black. -/
def rb_is_black : rb_node → Bool
  | node RB_BLACK _ _ _ => true
  | _ => false

/-- Repair below a black node whose left subtree may hold two red nodes in a
row: one rotation and a recolouring. -/
def rb_balance_left (l : rb_node) (x : mk_sched_conn) (r : rb_node) : rb_node :=
  match l with
  | node RB_RED (node RB_RED a p b) q c =>
    node RB_RED (node RB_BLACK a p b) q (node RB_BLACK c x r)
  | node RB_RED a p (node RB_RED b q c) =>
    node RB_RED (node RB_BLACK a p b) q (node RB_BLACK c x r)
  | _ => node RB_BLACK l x r

/-- Mirror image of `rb_balance_left`. -/
def rb_balance_right (l : rb_node) (x : mk_sched_conn) (r : rb_node) : rb_node :=
  match r with
  | node RB_RED b q (node RB_RED c s d) =>
    node RB_RED (node RB_BLACK l x b) q (node RB_BLACK c s d)
  | node RB_RED (node RB_RED b q c) s d =>
    node RB_RED (node RB_BLACK l x b) q (node RB_BLACK c s d)
  | _ => node RB_BLACK l x r

/-- The walk of `rb_insert_color` from the freshly linked node with descriptor
`fd` up to the root, repairing red-red pairs on the way. -/
def rb_insert_repair (fd : Int) : rb_node → rb_node
  | nil => nil
  | node c l x r =>
    if fd < x.event.fd then
      match c with
      | RB_BLACK => rb_balance_left (rb_insert_repair fd l) x r
      | RB_RED => node RB_RED (rb_insert_repair fd l) x r
    else if fd > x.event.fd then
      match c with
      | RB_BLACK => rb_balance_right l x (rb_insert_repair fd r)
      | RB_RED => node RB_RED l x (rb_insert_repair fd r)
    else node c l x r

/-- Modelled from the spec: `rb_insert_color(node, root)` of `mk_rbtree.c`,
which is not among the sources. Section 4.2 asks for a balanced (red-black)
ordered map whose insert attaches the record; the model recolours and rotates
along the path to the new node and leaves the root black. -/
def rb_insert_color (fd : Int) (root : rb_node) : rb_node :=
  rb_paint RB_BLACK (rb_insert_repair fd root)

/-- Repair after the left subtree lost one black node. -/
def rb_fix_left (l : rb_node) (x : mk_sched_conn) (r : rb_node) : rb_node :=
  match l, r with
  | node RB_RED a p b, _ => node RB_RED (node RB_BLACK a p b) x r
  | _, node RB_BLACK b q c => rb_balance_right l x (node RB_RED b q c)
  | _, node RB_RED (node RB_BLACK b q c) s d =>
    node RB_RED (node RB_BLACK l x b) q (rb_balance_right c s (rb_paint RB_RED d))
  | _, _ => node RB_RED l x r

/-- Repair after the right subtree lost one black node. -/
def rb_fix_right (l : rb_node) (x : mk_sched_conn) (r : rb_node) : rb_node :=
  match l, r with
  | _, node RB_RED b q c => node RB_RED l x (node RB_BLACK b q c)
  | node RB_BLACK a p b, _ => rb_balance_left (node RB_RED a p b) x r
  | node RB_RED a p (node RB_BLACK b q c), _ =>
    node RB_RED (rb_balance_left (rb_paint RB_RED a) p b) q (node RB_BLACK c x r)
  | _, _ => node RB_RED l x r

/-- Unlinks the leftmost node of a tree: returns its record (the in-order
successor of the node above) and the repaired rest. -/
def rb_split_min : rb_node → Option (mk_sched_conn × rb_node)
  | nil => none
  | node _ l x r =>
    match rb_split_min l with
    | none => some (x, r)
    | some (m, l1) =>
      some (m, if rb_is_black l then rb_fix_left l1 x r else node RB_RED l1 x r)

/-- Unlinks the node that the descent on `fd` reaches: a node with no right
child is replaced by its left child, any other by its in-order successor. -/
def rb_erase_node (fd : Int) : rb_node → rb_node
  | nil => nil
  | node _ l x r =>
    if fd < x.event.fd then
      if rb_is_black l then rb_fix_left (rb_erase_node fd l) x r
      else node RB_RED (rb_erase_node fd l) x r
    else if fd > x.event.fd then
      if rb_is_black r then rb_fix_right l x (rb_erase_node fd r)
      else node RB_RED l x (rb_erase_node fd r)
    else
      match rb_split_min r with
      | none => l
      | some (m, r1) =>
        if rb_is_black r then rb_fix_right l m r1 else node RB_RED l m r1

/-- Modelled from the spec: `rb_erase(node, root)` of `mk_rbtree.c`, which is
not among the sources. Section 4.2: erase removes the record from the index
and neither frees it nor closes the socket. The node is the one
`mk_sched_get_connection` returned, so the model reaches it by the same
descent on its descriptor, unlinks it and repairs the colours. -/
def rb_erase (fd : Int) (root : rb_node) : rb_node :=
  rb_paint RB_BLACK (rb_erase_node fd root)

/-! ## Connection index: `mk_sched_get_connection`, `mk_sched_add_connection` -/

/-- The `while (node)` loop of `mk_sched_get_connection`. -/
def get_connection_loop : rb_node → Int → Option mk_sched_conn
  | nil, _ => none
  | node _ l this r, remote_fd =>
    if remote_fd < this.event.fd then get_connection_loop l remote_fd
    else if remote_fd > this.event.fd then get_connection_loop r remote_fd
    else some this

/-- The function `mk_sched_get_connection(sched, remote_fd)`; `sched = none` is the `NULL`
handle, for which the function closes the socket and returns `NULL`. -/
def mk_sched_get_connection (sched : Option sched_list_node) (remote_fd : Int) :
    Option mk_sched_conn × List sched_step :=
  match sched with
  | none => (none, [sched_step.mk_socket_close remote_fd])
  | some s =>
    (get_connection_loop s.rb_queue remote_fd, [sched_step.mk_sched_get_connection remote_fd])

/-- The `while (*new)` descent of `mk_sched_add_connection` followed by
`rb_link_node(&conn->_rb_head, parent, new)`: the record is attached, as a red
leaf, at the `NULL` link the descent stops at. The result is `none` when the
descent meets a record with the same descriptor, where the source runs
`mk_bug(1)`. -/
def add_connection_link : rb_node → mk_sched_conn → Option rb_node
  | nil, conn => some (node RB_RED nil conn nil)
  | node c l this r, conn =>
    if conn.event.fd < this.event.fd then
      (add_connection_link l conn).map (fun l1 => node c l1 this r)
    else if conn.event.fd > this.event.fd then
      (add_connection_link r conn).map (fun r1 => node c l this r1)
    else none

/-- Return codes of a stage hook (`mk_plugin.h`). -/
inductive mk_plugin_ret where
  | MK_PLUGIN_RET_CONTINUE
  | MK_PLUGIN_RET_CLOSE_CONX
  deriving DecidableEq, Repr

/-- How a call of `mk_sched_add_connection` ends. -/
inductive add_outcome where
  /-- The function returns `conn` (`none` is `NULL`) and leaves the worker entry `sched`. -/
  | returned (conn : Option mk_sched_conn) (sched : sched_list_node) (steps : List sched_step)
  /-- Modelled from the spec: `mk_bug(1)` (`mk_macros.h` is not among the
  sources); section 7 says that on a duplicate descriptor the process aborts
  with a diagnostic, so the function does not return. -/
  | aborted (steps : List sched_step)
  deriving DecidableEq, Repr

/-- The function `mk_sched_add_connection(remote_fd, sched)`. The environment
supplies the result `ret` of `mk_plugin_stage_run_10`, whether `mk_mem_malloc`
succeeds, and the clock `log_current_utime`. No statement of the function
writes a counter of the worker entry. -/
def mk_sched_add_connection (ret : mk_plugin_ret) (malloc_ok : Bool) (log_current_utime : Int)
    (remote_fd : Int) (sched : sched_list_node) : add_outcome :=
  if ret = mk_plugin_ret.MK_PLUGIN_RET_CLOSE_CONX then
    add_outcome.returned none sched
      [sched_step.mk_plugin_stage_run_10 remote_fd, sched_step.mk_socket_close remote_fd]
  else if malloc_ok = false then
    add_outcome.returned none sched
      [sched_step.mk_plugin_stage_run_10 remote_fd, sched_step.mk_mem_malloc remote_fd]
  else
    let conn : mk_sched_conn :=
      { event := { fd := remote_fd, type := mk_event_type.MK_EVENT_CONNECTION,
                   mask := mk_event_mask.MK_EVENT_EMPTY },
        status := MK_SCHEDULER_CONN_PENDING,
        arrive_time := log_current_utime }
    match add_connection_link sched.rb_queue conn with
    | none =>
      add_outcome.aborted
        [sched_step.mk_plugin_stage_run_10 remote_fd, sched_step.mk_mem_malloc remote_fd,
         sched_step.mk_bug]
    | some linked =>
      add_outcome.returned (some conn)
        { sched with rb_queue := rb_insert_color remote_fd linked }
        [sched_step.mk_plugin_stage_run_10 remote_fd, sched_step.mk_mem_malloc remote_fd,
         sched_step.rb_link_node remote_fd, sched_step.rb_insert_color remote_fd]

/-! ## Removal: `mk_sched_remove_client`, `mk_sched_drop_connection` -/

/-- Modelled from the spec: `mk_event_del(loop, fd)` (`mk_event.c` is not among
the sources) deregisters the descriptor from the event loop. -/
def mk_event_del (loop : List mk_event_reg) (fd : Int) : List mk_event_reg :=
  loop.filter (fun r => decide (r.fd ≠ fd))

/-- The function `mk_sched_remove_client(sched, remote_fd)` in a build without `TRACE`:
returns the result code, the worker entry afterwards and the steps taken. -/
def mk_sched_remove_client (sched : sched_list_node) (remote_fd : Int) :
    Int × sched_list_node × List sched_step :=
  let sched1 := { sched with loop := mk_event_del sched.loop remote_fd }
  let found := mk_sched_get_connection (some sched1) remote_fd
  match found.1 with
  | some sc =>
    let sched2 := { sched1 with closed_connections := ull_incr sched1.closed_connections }
    let sched3 := { sched2 with rb_queue := rb_erase sc.event.fd sched2.rb_queue }
    (0, sched3,
      sched_step.mk_event_del remote_fd :: found.2 ++
        [sched_step.mk_plugin_stage_run_50 remote_fd, sched_step.closed_connections_incr,
         sched_step.rb_erase remote_fd, sched_step.mk_mem_free remote_fd,
         sched_step.mk_socket_close remote_fd])
  | none => (-1, sched1, sched_step.mk_event_del remote_fd :: found.2)

/-- The fields of `struct mk_http_session` that the scheduler reads. -/
structure mk_http_session where
  socket : Int
  init_time : Int
  counter_connections : Int
  deriving DecidableEq, Repr

/-- The thread-local variables of a worker thread and the steps it has taken:
`worker_sched_node` (`none` is `NULL`), the session table `cs_list`, the list
`cs_incomplete` of sessions whose request is incomplete, and the trace. -/
structure sched_thread where
  worker_sched_node : Option sched_list_node
  cs_list : List mk_http_session
  cs_incomplete : List mk_http_session
  trace : List sched_step
  deriving DecidableEq, Repr

/-- Modelled from the spec: `mk_http_session_remove(socket)` (`mk_http.c` is
not among the sources) removes the session associated with the socket, if
any. The session table is keyed by socket, and a removed session also leaves
the incomplete list it is linked in. -/
def mk_http_session_remove (socket : Int) (th : sched_thread) : sched_thread :=
  { th with
    cs_list := th.cs_list.filter (fun cs => decide (cs.socket ≠ socket)),
    cs_incomplete := th.cs_incomplete.filter (fun cs => decide (cs.socket ≠ socket)),
    trace := th.trace ++ [sched_step.mk_http_session_remove socket] }

/-- The function `mk_sched_get_thread_conf()`: the thread-local `worker_sched_node`. -/
def mk_sched_get_thread_conf (th : sched_thread) : Option sched_list_node :=
  th.worker_sched_node

/-- The function `mk_sched_drop_connection(socket)`, run on the thread `th`: returns the
result code and the thread state afterwards. -/
def mk_sched_drop_connection (socket : Int) (th : sched_thread) : Int × sched_thread :=
  let th1 := mk_http_session_remove socket th
  let sched := mk_sched_get_thread_conf th1
  let found := mk_sched_get_connection sched socket
  let th2 := { th1 with trace := th1.trace ++ found.2 }
  match found.1, sched with
  | some _, some s =>
    let r := mk_sched_remove_client s socket
    (0, { th2 with worker_sched_node := some r.2.1, trace := th2.trace ++ r.2.2 })
  | _, _ => (0, th2)

/-! ## Timeout sweep: `mk_sched_check_timeouts` -/

/-- First loop of `mk_sched_check_timeouts`, over the records linked in
`sched->incoming_queue` (`mk_list_foreach_safe`); `client_timeout` is an `int`,
compared with the clock after the usual conversion. -/
def check_timeouts_incoming (cfg : mk_server_config) (log_current_utime : Int) :
    List mk_sched_conn → sched_thread → sched_thread
  | [], th => th
  | sched_conn :: rest, th =>
    let client_timeout := to_int (sched_conn.arrive_time + cfg.timeout)
    if client_timeout ≤ log_current_utime then
      check_timeouts_incoming cfg log_current_utime rest
        (mk_sched_drop_connection sched_conn.event.fd th).2
    else check_timeouts_incoming cfg log_current_utime rest th

/-- Second loop of `mk_sched_check_timeouts`, over the sessions linked in
`cs_incomplete` (`mk_list_foreach_safe`). -/
def check_timeouts_sessions (cfg : mk_server_config) (log_current_utime : Int) :
    List mk_http_session → sched_thread → sched_thread
  | [], th => th
  | cs_node :: rest, th =>
    let client_timeout :=
      if cs_node.counter_connections = 0 then to_int (cs_node.init_time + cfg.timeout)
      else to_int (cs_node.init_time + cfg.keep_alive_timeout)
    if client_timeout ≤ log_current_utime then
      check_timeouts_sessions cfg log_current_utime rest
        (mk_sched_drop_connection cs_node.socket th).2
    else check_timeouts_sessions cfg log_current_utime rest th

/-- The function `mk_sched_check_timeouts(sched)`, run on the thread `th` with the clock
value `log_current_utime`. -/
def mk_sched_check_timeouts (cfg : mk_server_config) (log_current_utime : Int)
    (sched : sched_list_node) (th : sched_thread) : Int × sched_thread :=
  let th1 := check_timeouts_incoming cfg log_current_utime sched.incoming_queue th
  let th2 := check_timeouts_sessions cfg log_current_utime th1.cs_incomplete th1
  (0, th2)

/-! ## Predicates on worker entries -/

/-- Both counters fit an `unsigned long long` and `accepted >= closed`. -/
def counters_ok (s : sched_list_node) : Prop :=
  s.closed_connections ≤ s.accepted_connections ∧ s.accepted_connections < 2 ^ 64

instance (s : sched_list_node) : Decidable (counters_ok s) := by
  unfold counters_ok; infer_instance

/-- The configuration of the spec's end-to-end scenarios: two workers,
`server_capacity` 4, request timeout 5 s, keep-alive timeout 15 s, fair
balancing. -/
def scenario_config : mk_server_config :=
  { workers := 2, server_capacity := 4, timeout := 5, keep_alive_timeout := 15,
    scheduler_mode := MK_SCHEDULER_FAIR_BALANCING }

/-! ## Example states -/

/-- The record that `mk_sched_add_connection` builds for descriptor `fd` at
clock value `now`. -/
def pending_conn (fd now : Int) : mk_sched_conn :=
  { event := { fd := fd, type := mk_event_type.MK_EVENT_CONNECTION,
               mask := mk_event_mask.MK_EVENT_EMPTY },
    status := MK_SCHEDULER_CONN_PENDING,
    arrive_time := now }

/-- The registration of a connection record for reading. -/
def read_reg (c : mk_sched_conn) : mk_event_reg :=
  { fd := c.event.fd, type := mk_event_type.MK_EVENT_CONNECTION,
    mask := mk_event_mask.MK_EVENT_READ, data := some c }

/-- A worker with two live connections, descriptors 3 and 7, both registered
for reading next to the notification channel (descriptor 5). -/
def two_conn_worker : sched_list_node :=
  { sched_list_node_zero with
    loop := [{ fd := 5, type := mk_event_type.MK_EVENT_NOTIFICATION,
               mask := mk_event_mask.MK_EVENT_READ, data := none },
             read_reg (pending_conn 3 0), read_reg (pending_conn 7 0)],
    accepted_connections := 2,
    rb_queue := node RB_BLACK (node RB_RED nil (pending_conn 3 0) nil) (pending_conn 7 0) nil,
    signal_channel_r := 5, signal_channel_w := 6 }

/-- A worker thread whose worker entry is `s`, with no session and an empty
trace. -/
def thread_of (s : sched_list_node) : sched_thread :=
  { worker_sched_node := some s, cs_list := [], cs_incomplete := [], trace := [] }

/-- A freshly started worker: nothing indexed, and the event loop holds only
the read end of the notification channel (descriptor 5), which
`mk_event_channel_create` registers in `mk_sched_launch_worker_loop`. -/
def notif_only_worker : sched_list_node :=
  { sched_list_node_zero with
    loop := [{ fd := 5, type := mk_event_type.MK_EVENT_NOTIFICATION,
               mask := mk_event_mask.MK_EVENT_READ, data := none }],
    signal_channel_r := 5, signal_channel_w := 6 }

/-- A worker thread on `two_conn_worker` whose connection 7 has a session that
is still waiting for the rest of its first request. -/
def session_thread : sched_thread :=
  { worker_sched_node := some two_conn_worker,
    cs_list := [{ socket := 7, init_time := 0, counter_connections := 0 }],
    cs_incomplete := [{ socket := 7, init_time := 0, counter_connections := 0 }],
    trace := [] }

/-- The live-count predicate of a worker: `accepted_connections -
closed_connections` is not negative and equals the number of records in the
worker's connection index. -/
def live_count_invariant (s : sched_list_node) : Prop :=
  s.closed_connections ≤ s.accepted_connections ∧
    s.accepted_connections - s.closed_connections = rb_size s.rb_queue

instance (s : sched_list_node) : Decidable (live_count_invariant s) := by
  unfold live_count_invariant; infer_instance

/-- The worker entry right after `mk_sched_init` and
`mk_sched_register_thread`, for the worker with id `wid`. -/
def fresh_worker (wid : Nat) : sched_list_node :=
  (mk_sched_register_thread sched_list_node_zero wid).2

/-- The worker entries that the scheduler can reach: a freshly registered
entry, the entry a returning `mk_sched_add_connection` leaves, the entry
`mk_sched_remove_client` leaves, and any entry that differs from a reachable
one outside the connection index (counters written by the acceptor, event
registrations, the incoming queue). -/
inductive worker_reachable : sched_list_node → Prop where
  | register (wid : Nat) : worker_reachable (fresh_worker wid)
  | add_connection (ret : mk_plugin_ret) (malloc_ok : Bool) (now fd : Int)
      (s s1 : sched_list_node) (r : Option mk_sched_conn) (steps : List sched_step) :
      worker_reachable s →
      mk_sched_add_connection ret malloc_ok now fd s = add_outcome.returned r s1 steps →
      worker_reachable s1
  | remove_client (fd : Int) (s : sched_list_node) :
      worker_reachable s → worker_reachable (mk_sched_remove_client s fd).2.1
  | other_fields (s s1 : sched_list_node) :
      worker_reachable s → s1.rb_queue = s.rb_queue → worker_reachable s1

/-! ## Event handlers: `mk_sched_event_read`, `mk_sched_event_write`, `mk_sched_event_close` -/

/-- Modelled from the spec: `mk_http_session_get(socket)` (`mk_http.c` is not
among the sources) looks the session up by socket. -/
def mk_http_session_get (socket : Int) (th : sched_thread) : Option mk_http_session :=
  th.cs_list.find? (fun cs => decide (cs.socket = socket))

/-- Modelled from the spec: `mk_http_session_create(socket, sched)` (`mk_http.c`
is not among the sources) creates the session of the socket. The new session
has served no request, its `init_time` is the clock value, and its request is
incomplete, so it is linked in the incomplete list. -/
def mk_http_session_create (socket log_current_utime : Int) (th : sched_thread) :
    sched_thread :=
  let cs : mk_http_session :=
    { socket := socket, init_time := log_current_utime, counter_connections := 0 }
  { th with
    cs_list := th.cs_list ++ [cs],
    cs_incomplete := th.cs_incomplete ++ [cs],
    trace := th.trace ++ [sched_step.mk_http_session_create socket] }

/-- Modelled from the spec: `mk_http_status_completed(cs)` (`mk_http.c` is not
among the sources) marks the request of the session complete, so the session
leaves the incomplete list. -/
def mk_http_status_completed (socket : Int) (th : sched_thread) : sched_thread :=
  { th with
    cs_incomplete := th.cs_incomplete.filter (fun cs => decide (cs.socket ≠ socket)),
    trace := th.trace ++ [sched_step.mk_http_status_completed socket] }

/-- Modelled from the spec: `mk_event_add(loop, fd, type, mask, data)`
(`mk_event.c` is not among the sources) registers the descriptor with its kind
tag, mask and payload; the descriptor has one registration, so an earlier one
is replaced. -/
def mk_event_add (loop : List mk_event_reg) (fd : Int) (type : mk_event_type)
    (mask : mk_event_mask) (data : Option mk_sched_conn) : List mk_event_reg :=
  { fd := fd, type := type, mask := mask, data := data } ::
    loop.filter (fun r => decide (r.fd ≠ fd))

/-- Results of `mk_http_parser` (`mk_http_parser.h`); the handler treats
whatever is neither `MK_HTTP_PARSER_OK` nor `MK_HTTP_PARSER_ERROR` as pending. -/
inductive mk_http_parser_status where
  | MK_HTTP_PARSER_OK
  | MK_HTTP_PARSER_ERROR
  | MK_HTTP_PARSER_PENDING
  deriving DecidableEq, Repr

/-- The `errno` value `EAGAIN` on Linux. -/
def EAGAIN : Int := 11

/-- Modelled from the spec: `mk_channel_is_empty(&cs->channel)` (`mk_stream.h`
is not among the sources), the channel-emptiness query, on a channel that holds
`streams` queued streams. As `mk_list_is_empty`, which the read handler
compares with 0 to find an empty request list, it returns 0 for "empty". -/
def mk_channel_is_empty (streams : Nat) : Int :=
  if streams = 0 then 0 else -1

/-- What the collaborators answer during one call of `mk_sched_event_read`:
whether `mk_http_session_create` succeeds, the clock, the result of
`mk_http_handler_read`, whether `cs->request_list` is empty, the result of
`mk_http_parser`, and the number of streams queued in `cs->channel` once the
parser has run. -/
structure read_event_env where
  session_create_ok : Bool
  log_current_utime : Int
  handler_read_ret : Int
  request_list_empty : Bool
  parser_status : mk_http_parser_status
  channel_streams : Nat
  deriving DecidableEq, Repr

/-- The last two statements of `mk_sched_event_read`:
`if (ret == -EAGAIN) return 1; return ret;`. -/
def event_read_return (ret : Int) : Int :=
  if ret = -EAGAIN then 1 else ret

/-- The function `mk_sched_event_read(conn, sched)`, run on the thread `th`.
The argument `sched` is the entry of the calling worker, the one the thread
reaches through `worker_sched_node`, so the registration that
`mk_event_add(sched->loop, ...)` makes lands in that entry. -/
def mk_sched_event_read (env : read_event_env) (conn : mk_sched_conn) (th : sched_thread) :
    Int × sched_thread :=
  let socket := conn.event.fd
  let session : Option sched_thread :=
    match mk_http_session_get socket th with
    | some _ => some th
    | none =>
      if env.session_create_ok then
        some (mk_http_session_create socket env.log_current_utime th)
      else none
  match session with
  | none => (-1, { th with trace := th.trace ++ [sched_step.mk_http_session_create socket] })
  | some th1 =>
    let ret := env.handler_read_ret
    let th2 := { th1 with trace := th1.trace ++ [sched_step.mk_http_handler_read socket] }
    if ret > 0 then
      let th3 :=
        if env.request_list_empty then
          { th2 with trace := th2.trace ++ [sched_step.mk_http_request_init socket] }
        else th2
      let th4 := { th3 with trace := th3.trace ++ [sched_step.mk_http_parser_call socket] }
      match env.parser_status with
      | mk_http_parser_status.MK_HTTP_PARSER_OK =>
        let th5 := mk_http_status_completed socket th4
        let th6 :=
          { th5 with
            worker_sched_node := th5.worker_sched_node.map (fun s =>
              { s with
                loop := mk_event_add s.loop socket mk_event_type.MK_EVENT_CONNECTION
                  mk_event_mask.MK_EVENT_WRITE (some conn) }),
            trace := th5.trace ++
              [sched_step.mk_event_add socket mk_event_mask.MK_EVENT_WRITE] }
        (event_read_return ret, th6)
      | mk_http_parser_status.MK_HTTP_PARSER_ERROR =>
        let th5 :=
          if mk_channel_is_empty env.channel_streams ≠ 0 then
            { th4 with trace := th4.trace ++ [sched_step.mk_channel_write socket] }
          else th4
        (-1, mk_http_session_remove socket th5)
      | mk_http_parser_status.MK_HTTP_PARSER_PENDING => (event_read_return ret, th4)
    else (event_read_return ret, th2)

/-- Results of `mk_http_handler_write` (`mk_stream.h`): the three codes the
handler compares with, and any other value. -/
inductive mk_channel_ret where
  | MK_CHANNEL_ERROR
  | MK_CHANNEL_DONE
  | MK_CHANNEL_FLUSH
  | other (code : Int)
  deriving DecidableEq, Repr

/-- The function `mk_sched_event_write(conn, sched)`, run on the thread `th`.
The environment supplies the result `ret` of `mk_http_handler_write` and the
collaborator `mk_http_request_end` (`mk_http.c` is not among the sources), here
the argument `request_end`. The conditional on `mk_channel_is_empty` before the
write handler has an empty body and is left out. -/
def mk_sched_event_write (ret : mk_channel_ret)
    (request_end : mk_sched_conn → sched_thread → Int × sched_thread)
    (conn : mk_sched_conn) (th : sched_thread) : Int × sched_thread :=
  let socket := conn.event.fd
  match mk_http_session_get socket th with
  | none => (0, (mk_sched_drop_connection socket th).2)
  | some _ =>
    let th1 := { th with trace := th.trace ++ [sched_step.mk_http_handler_write socket] }
    match ret with
    | mk_channel_ret.MK_CHANNEL_ERROR => (-1, (mk_sched_drop_connection socket th1).2)
    | mk_channel_ret.MK_CHANNEL_DONE => request_end conn th1
    | mk_channel_ret.MK_CHANNEL_FLUSH => (0, th1)
    | mk_channel_ret.other _ => (-1, th1)

/-- Event codes handed to `mk_sched_event_close` (`mk_event.h`): the three
terminal reasons the function compares with, and any other value. -/
inductive mk_ep_socket_event where
  | MK_EP_SOCKET_CLOSED
  | MK_EP_SOCKET_ERROR
  | MK_EP_SOCKET_TIMEOUT
  | other (code : Int)
  deriving DecidableEq, Repr

/-- The step of the plugin hook that `mk_sched_event_close` runs for an event
code, if any. -/
def event_close_hook (socket : Int) : mk_ep_socket_event → List sched_step
  | mk_ep_socket_event.MK_EP_SOCKET_CLOSED => [sched_step.mk_plugin_event_close socket]
  | mk_ep_socket_event.MK_EP_SOCKET_ERROR => [sched_step.mk_plugin_event_error socket]
  | mk_ep_socket_event.MK_EP_SOCKET_TIMEOUT => [sched_step.mk_plugin_event_timeout socket]
  | mk_ep_socket_event.other _ => []

/-- The function `mk_sched_event_close(socket, event)`, run on the thread `th`. -/
def mk_sched_event_close (socket : Int) (event : mk_ep_socket_event) (th : sched_thread) :
    Int × sched_thread :=
  let th1 := (mk_sched_drop_connection socket th).2
  (0, { th1 with trace := th1.trace ++ event_close_hook socket event })

/-! ## Helpers for stating the sweep -/

/-- Drops the descriptors of a list one after the other, in list order. -/
def drop_connections : List Int → sched_thread → sched_thread
  | [], th => th
  | fd :: rest, th => drop_connections rest (mk_sched_drop_connection fd th).2

/-- The value is representable as an `int`. -/
def in_int_range (x : Int) : Prop := -2 ^ 31 ≤ x ∧ x < 2 ^ 31

instance (x : Int) : Decidable (in_int_range x) := by
  unfold in_int_range; infer_instance

/-- The deadline of a session in the second pass of the sweep: `init_time` plus
the request timeout for a session that has served no request, plus the
keep-alive timeout otherwise. -/
def session_deadline (cfg : mk_server_config) (cs : mk_http_session) : Int :=
  cs.init_time + (if cs.counter_connections = 0 then cfg.timeout else cfg.keep_alive_timeout)

/-- A worker on `two_conn_worker` whose two records are both linked in the
incoming queue: descriptor 3 arrived at time 0, descriptor 7 at time 3. -/
def sweep_worker : sched_list_node :=
  { two_conn_worker with
    rb_queue := node RB_BLACK (node RB_RED nil (pending_conn 3 0) nil) (pending_conn 7 3) nil,
    incoming_queue := [pending_conn 3 0, pending_conn 7 3] }

/-- A session in keep-alive: it has served one request and was re-armed at
time 2. -/
def keepalive_session : mk_http_session :=
  { socket := 7, init_time := 2, counter_connections := 1 }

/-- A worker thread on `two_conn_worker` whose connection 7 is idle in
keep-alive. -/
def keepalive_thread : sched_thread :=
  { worker_sched_node := some two_conn_worker,
    cs_list := [keepalive_session],
    cs_incomplete := [keepalive_session],
    trace := [] }

/-- A session in keep-alive that was re-armed ten seconds before the largest
value of an `int`. -/
def late_session : mk_http_session :=
  { socket := 7, init_time := 2147483637, counter_connections := 1 }

/-- A worker thread on `two_conn_worker` whose connection 7 has the session
`late_session`. -/
def late_thread : sched_thread :=
  { worker_sched_node := some two_conn_worker,
    cs_list := [late_session],
    cs_incomplete := [late_session],
    trace := [] }

/-- The answers of the collaborators when a read makes progress: 120 bytes
read, with the given parser result and number of queued streams. -/
def progress_env (status : mk_http_parser_status) (streams : Nat) : read_event_env :=
  { session_create_ok := true, log_current_utime := 1, handler_read_ret := 120,
    request_list_empty := true, parser_status := status, channel_streams := streams }

/-- The answers of the collaborators when the read would block. -/
def would_block_env : read_event_env :=
  { session_create_ok := true, log_current_utime := 1, handler_read_ret := -EAGAIN,
    request_list_empty := true, parser_status := mk_http_parser_status.MK_HTTP_PARSER_PENDING,
    channel_streams := 0 }

/-- The steps of one call of `mk_sched_event_read` on descriptor `fd`, in
order; `has_session` tells whether the socket had a session before the call. -/
def event_read_steps (env : read_event_env) (fd : Int) (has_session : Bool) :
    List sched_step :=
  if has_session = false ∧ env.session_create_ok = false then
    [sched_step.mk_http_session_create fd]
  else
    (if has_session then [] else [sched_step.mk_http_session_create fd]) ++
    [sched_step.mk_http_handler_read fd] ++
    (if 0 < env.handler_read_ret then
      (if env.request_list_empty then [sched_step.mk_http_request_init fd] else []) ++
      [sched_step.mk_http_parser_call fd] ++
      (match env.parser_status with
        | mk_http_parser_status.MK_HTTP_PARSER_OK =>
          [sched_step.mk_http_status_completed fd,
           sched_step.mk_event_add fd mk_event_mask.MK_EVENT_WRITE]
        | mk_http_parser_status.MK_HTTP_PARSER_ERROR =>
          (if env.channel_streams = 0 then [] else [sched_step.mk_channel_write fd]) ++
          [sched_step.mk_http_session_remove fd]
        | mk_http_parser_status.MK_HTTP_PARSER_PENDING => [])
    else [])

/-- A stand-in for the collaborator `mk_http_request_end` that leaves the
thread as it is and returns 0. -/
def request_end_idle (_conn : mk_sched_conn) (th : sched_thread) : Int × sched_thread :=
  (0, th)

/-- A thread that is not a worker: its worker handle `worker_sched_node` is
`NULL`. It holds a session for socket 9. -/
def no_worker_thread : sched_thread :=
  { worker_sched_node := none,
    cs_list := [{ socket := 9, init_time := 0, counter_connections := 0 }],
    cs_incomplete := [],
    trace := [] }

/-- The incoming-queue predicate of a worker: every record linked in the
incoming queue is a live record of the connection index, the one indexed under
its descriptor. -/
def incoming_queue_invariant (s : sched_list_node) : Prop :=
  ∀ c ∈ s.incoming_queue, get_connection_loop s.rb_queue c.event.fd = some c

instance (s : sched_list_node) : Decidable (incoming_queue_invariant s) := by
  unfold incoming_queue_invariant; infer_instance

/-- The worker entries that the scheduler builds: a freshly registered entry
(`mk_list_init` leaves its incoming queue empty), the entry a returning
`mk_sched_add_connection` leaves, the entry `mk_sched_remove_client` leaves, and
any entry that differs from such an entry outside the connection index and the
incoming queue (counters written by the acceptor, event registrations). No
statement of the scheduler links a record into the incoming queue. -/
inductive worker_built : sched_list_node → Prop where
  | register (wid : Nat) : worker_built (fresh_worker wid)
  | add_connection (ret : mk_plugin_ret) (malloc_ok : Bool) (now fd : Int)
      (s s1 : sched_list_node) (r : Option mk_sched_conn) (steps : List sched_step) :
      worker_built s →
      mk_sched_add_connection ret malloc_ok now fd s = add_outcome.returned r s1 steps →
      worker_built s1
  | remove_client (fd : Int) (s : sched_list_node) :
      worker_built s → worker_built (mk_sched_remove_client s fd).2.1
  | other_fields (s s1 : sched_list_node) :
      worker_built s → s1.rb_queue = s.rb_queue → s1.incoming_queue = s.incoming_queue →
      worker_built s1

/-! # Proofs -/

/-! ## Balancer: facts about `_next_target` -/

theorem ull_sub_eq_sub (a b : Nat) (hba : b ≤ a) (ha : a < 2 ^ 64) : ull_sub a b = a - b := by
  unfold ull_sub ULLONG_MODULUS
  omega

theorem live_connections_eq (s : sched_list_node) (h : counters_ok s) :
    live_connections s = s.accepted_connections - s.closed_connections :=
  ull_sub_eq_sub _ _ h.1 h.2

/-- Loop invariant of `next_target_loop`: the scanned entries split around the
current target, every entry before it is strictly more loaded and every entry
after it is at least as loaded; the same then holds of the result over the
whole table. -/
theorem next_target_loop_spec (rest : List sched_list_node) :
    ∀ (p1 : List sched_list_node) (st : sched_list_node) (p2 : List sched_list_node),
      (∀ s ∈ p1, live_connections st < live_connections s) →
      (∀ s ∈ p2, live_connections st ≤ live_connections s) →
      ∃ q1 st1 q2,
        p1 ++ st :: p2 ++ rest = q1 ++ st1 :: q2 ∧
        (next_target_loop rest (p1 ++ st :: p2).length p1.length (live_connections st)).1
          = q1.length ∧
        (next_target_loop rest (p1 ++ st :: p2).length p1.length (live_connections st)).2
          = live_connections st1 ∧
        (∀ s ∈ q1, live_connections st1 < live_connections s) ∧
        (∀ s ∈ q2, live_connections st1 ≤ live_connections s) := by
  induction rest with
  | nil =>
    intro p1 st p2 h1 h2
    exact ⟨p1, st, p2, by simp, rfl, rfl, h1, h2⟩
  | cons s rest ih =>
    intro p1 st p2 h1 h2
    unfold next_target_loop
    by_cases hlt : live_connections s < live_connections st
    · have hq1 : ∀ a ∈ p1 ++ st :: p2, live_connections s < live_connections a := by
        intro a ha
        rcases List.mem_append.1 ha with ha | ha
        · exact lt_trans hlt (h1 a ha)
        · rcases List.mem_cons.1 ha with ha | ha
          · subst ha; exact hlt
          · exact lt_of_lt_of_le hlt (h2 a ha)
      by_cases hz : live_connections s = 0
      · have h0 : 0 < live_connections st := hz ▸ hlt
        refine ⟨p1 ++ st :: p2, s, rest, by simp, ?_, ?_, hq1, ?_⟩
        · simp [hz, h0]
        · simp [hz, h0]
        · intro a _; rw [hz]; exact Nat.zero_le _
      · obtain ⟨q1, st1, q2, e, r1, r2, g1, g2⟩ :=
          ih (p1 ++ st :: p2) s [] hq1 (by simp)
        refine ⟨q1, st1, q2, by simpa using e, ?_, ?_, g1, g2⟩
        · simpa [hlt, hz] using r1
        · simpa [hlt, hz] using r2
    · obtain ⟨q1, st1, q2, e, r1, r2, g1, g2⟩ :=
        ih p1 st (p2 ++ [s]) h1 (by
          intro a ha
          rcases List.mem_append.1 ha with ha | ha
          · exact h2 a ha
          · have : a = s := by simpa using ha
            subst this; exact Nat.le_of_not_lt hlt)
      refine ⟨q1, st1, q2, by simpa using e, ?_, ?_, g1, g2⟩
      · simpa [hlt] using r1
      · simpa [hlt] using r2

/-- What `_next_target` returns on a non-empty table: either the refusal value,
and then worker 0 is not idle and every worker is at or above the capacity, or
the index of an entry that splits the table as in `next_target_loop_spec`. -/
theorem next_target_spec (s0 : sched_list_node) (rest : List sched_list_node) (cap : Nat) :
    (_next_target (s0 :: rest) cap = -1 ∧ live_connections s0 ≠ 0 ∧
        ∀ s ∈ s0 :: rest, cap ≤ live_connections s) ∨
    (∃ q1 st q2, s0 :: rest = q1 ++ st :: q2 ∧
        _next_target (s0 :: rest) cap = (q1.length : Int) ∧
        (∀ s ∈ q1, live_connections st < live_connections s) ∧
        (∀ s ∈ q2, live_connections st ≤ live_connections s) ∧
        (live_connections s0 = 0 ∨ live_connections st < cap)) := by
  by_cases h0 : live_connections s0 = 0
  · right
    refine ⟨[], s0, rest, rfl, ?_, by simp, ?_, Or.inl h0⟩
    · simp [_next_target, h0]
    · intro s _; rw [h0]; exact Nat.zero_le _
  · obtain ⟨q1, st, q2, e, r1, r2, g1, g2⟩ :=
      next_target_loop_spec rest [] s0 [] (by simp) (by simp)
    simp only [List.nil_append, List.length_cons, List.length_nil, Nat.zero_add,
      List.cons_append] at e r1 r2
    by_cases hc : cap ≤ live_connections st
    · left
      refine ⟨?_, h0, ?_⟩
      · simp [_next_target, h0, r2, hc]
      · intro s hs
        rw [e] at hs
        rcases List.mem_append.1 hs with hs | hs
        · exact le_trans hc (le_of_lt (g1 s hs))
        · rcases List.mem_cons.1 hs with hs | hs
          · subst hs; exact hc
          · exact le_trans hc (g2 s hs)
    · right
      refine ⟨q1, st, q2, e, ?_, g1, g2, Or.inr (Nat.lt_of_not_le hc)⟩
      simp [_next_target, h0, r1, r2, hc]

/-- Reading entry `j` of a table split as `q1 ++ st :: q2`. -/
theorem getElem?_split (q1 q2 : List sched_list_node) (st sj : sched_list_node) (j : Nat)
    (h : (q1 ++ st :: q2)[j]? = some sj) :
    (j < q1.length ∧ sj ∈ q1) ∨ (j = q1.length ∧ sj = st) ∨ (q1.length < j ∧ sj ∈ q2) := by
  rcases Nat.lt_trichotomy j q1.length with hj | hj | hj
  · left
    rw [List.getElem?_append_left hj] at h
    exact ⟨hj, List.getElem?_mem h⟩
  · right; left
    subst hj
    rw [List.getElem?_append_right (le_refl _)] at h
    simpa using h.symm
  · right; right
    rw [List.getElem?_append_right (le_of_lt hj)] at h
    obtain ⟨k, hk⟩ : ∃ k, j - q1.length = k + 1 := ⟨j - q1.length - 1, by omega⟩
    rw [hk] at h
    simp only [List.getElem?_cons_succ] at h
    exact ⟨hj, List.getElem?_mem h⟩

/-- C1. On a table of W >= 1 workers with accepted >= closed everywhere, a
worker index `t` returned by `_next_target` names an entry whose live count
`accepted - closed` is minimal over the table and strictly below the live count
of every entry with a lower index. -/
theorem next_target_lowest_minimum (sched_list : List sched_list_node) (server_capacity t : Nat)
    (hW : 1 ≤ sched_list.length) (hok : ∀ s ∈ sched_list, counters_ok s)
    (ht : _next_target sched_list server_capacity = (t : Int)) :
    ∃ st, sched_list[t]? = some st ∧
      ∀ j sj, sched_list[j]? = some sj →
        st.accepted_connections - st.closed_connections
            ≤ sj.accepted_connections - sj.closed_connections ∧
        (j < t → st.accepted_connections - st.closed_connections
            < sj.accepted_connections - sj.closed_connections) := by
  cases sched_list with
  | nil => simp at hW
  | cons s0 rest =>
    rcases next_target_spec s0 rest server_capacity with ⟨hm, _, _⟩ | ⟨q1, st, q2, e, hr, g1, g2, _⟩
    · rw [hm] at ht; omega
    · have htq : t = q1.length := by rw [hr] at ht; exact_mod_cast ht.symm
      have hst : counters_ok st := hok st (by rw [e]; simp)
      refine ⟨st, by rw [e, htq, List.getElem?_append_right (le_refl _)]; simp, ?_⟩
      intro j sj hj
      have hsj : counters_ok sj := hok sj (List.getElem?_mem hj)
      rw [e] at hj
      rw [← live_connections_eq st hst, ← live_connections_eq sj hsj]
      rcases getElem?_split q1 q2 st sj j hj with ⟨_, hm⟩ | ⟨hjt, hm⟩ | ⟨hjt, hm⟩
      · exact ⟨le_of_lt (g1 sj hm), fun _ => g1 sj hm⟩
      · subst hm; exact ⟨le_refl _, fun h => by omega⟩
      · exact ⟨g2 sj hm, fun h => by omega⟩

/-- C1, at the table of the spec's scenario: worker 0 has 2 live connections,
worker 1 has none, `server_capacity` is 4, and worker 1 is selected. -/
theorem next_target_lowest_minimum_witness :
    _next_target [worker_with 2 0, worker_with 0 0] 4 = 1 ∧
    ∃ st, [worker_with 2 0, worker_with 0 0][1]? = some st ∧
      ∀ j sj, [worker_with 2 0, worker_with 0 0][j]? = some sj →
        st.accepted_connections - st.closed_connections
            ≤ sj.accepted_connections - sj.closed_connections ∧
        (j < 1 → st.accepted_connections - st.closed_connections
            < sj.accepted_connections - sj.closed_connections) :=
  ⟨by decide,
   next_target_lowest_minimum [worker_with 2 0, worker_with 0 0] 4 1 (by decide) (by decide)
     (by decide)⟩

/-- The refusal of `mk_sched_next_target` is the refusal value of `_next_target`. -/
theorem mk_sched_next_target_eq_none (sched_list : List sched_list_node) (cap : Nat) :
    mk_sched_next_target sched_list cap = none ↔ _next_target sched_list cap = -1 := by
  unfold mk_sched_next_target
  by_cases h : _next_target sched_list cap = -1 <;> simp [h]

/-- C2 as stated fails: with `server_capacity = 0` and a single idle worker the
minimum live count (0) is at or above the capacity, yet the early return hands
out worker 0 instead of refusing. -/
theorem next_target_refusal_counterexample :
    ¬ (mk_sched_next_target [worker_with 0 0] 0 = none ↔
        ∀ s ∈ [worker_with 0 0], 0 ≤ s.accepted_connections - s.closed_connections) := by
  decide

/-- C2, amended. On a table of W >= 1 workers with accepted >= closed
everywhere and `server_capacity >= 1`, `mk_sched_next_target` returns `NULL`
exactly when every worker's live count (so also the minimum) is at or above
`server_capacity`; in every other case it returns a worker of the table. -/
theorem next_target_refuses_iff_full (sched_list : List sched_list_node) (server_capacity : Nat)
    (hW : 1 ≤ sched_list.length) (hok : ∀ s ∈ sched_list, counters_ok s)
    (hcap : 1 ≤ server_capacity) :
    (mk_sched_next_target sched_list server_capacity = none ↔
      ∀ s ∈ sched_list,
        server_capacity ≤ s.accepted_connections - s.closed_connections) ∧
    (mk_sched_next_target sched_list server_capacity ≠ none →
      ∃ t, mk_sched_next_target sched_list server_capacity = some t ∧
        t < sched_list.length) := by
  cases sched_list with
  | nil => simp at hW
  | cons s0 rest =>
    have hlive : ∀ s ∈ s0 :: rest,
        s.accepted_connections - s.closed_connections = live_connections s :=
      fun s hs => (live_connections_eq s (hok s hs)).symm
    rcases next_target_spec s0 rest server_capacity with
      ⟨hm, _, hall⟩ | ⟨q1, st, q2, e, hr, g1, _, hlow⟩
    · constructor
      · constructor
        · intro _ s hs
          rw [hlive s hs]; exact hall s hs
        · intro _
          exact (mk_sched_next_target_eq_none _ _).2 hm
      · intro hne
        exact absurd ((mk_sched_next_target_eq_none _ _).2 hm) hne
    · have hstm : st ∈ s0 :: rest := by rw [e]; simp
      have hne : _next_target (s0 :: rest) server_capacity ≠ -1 := by
        rw [hr]; omega
      have hsome : mk_sched_next_target (s0 :: rest) server_capacity = some q1.length := by
        unfold mk_sched_next_target
        simp [hr]
      have hst : live_connections st < server_capacity := by
        rcases hlow with h0 | h
        · have hle : live_connections st ≤ live_connections s0 := by
            cases q1 with
            | nil =>
              simp only [List.nil_append, List.cons.injEq] at e
              rw [e.1]
            | cons a q1 =>
              simp only [List.cons_append, List.cons.injEq] at e
              rw [e.1]
              exact le_of_lt (g1 a (by simp))
          omega
        · exact h
      constructor
      · constructor
        · intro hnone
          simp [hsome] at hnone
        · intro hall
          have := hall st hstm
          rw [hlive st hstm] at this
          omega
      · intro _
        refine ⟨q1.length, hsome, ?_⟩
        rw [e]; simp

/-- C2, amended, at a full table: two workers with 4 live connections each and
`server_capacity` 4 are refused. -/
theorem next_target_refuses_iff_full_witness :
    mk_sched_next_target [worker_with 4 0, worker_with 5 1] 4 = none :=
  ((next_target_refuses_iff_full [worker_with 4 0, worker_with 5 1] 4 (by decide) (by decide)
    (by decide)).1).2 (by decide)

/-- C3. With two workers, `server_capacity` 4 and 2 live connections on each
worker, both workers have reached the fair-mode ceiling `server_capacity / W`
that `mk_sched_register_thread` computes, and still `mk_sched_next_target`
returns worker 0 instead of `NULL`: the comparison in `_next_target` is against
the whole `server_capacity`. -/
theorem next_target_ignores_worker_ceiling :
    register_thread_capacity scenario_config = 2 ∧
    (∀ s ∈ [worker_with 2 0, worker_with 2 0],
      register_thread_capacity scenario_config ≤ live_connections s) ∧
    _next_target [worker_with 2 0, worker_with 2 0] scenario_config.server_capacity = 0 ∧
    mk_sched_next_target [worker_with 2 0, worker_with 2 0] scenario_config.server_capacity
      = some 0 := by
  decide

/-! ## The tree library keeps the in-order sequence of the records -/

theorem rb_inorder_paint (c : rb_color) (t : rb_node) :
    rb_inorder (rb_paint c t) = rb_inorder t := by
  cases t <;> rfl

theorem rb_inorder_balance_left (l : rb_node) (x : mk_sched_conn) (r : rb_node) :
    rb_inorder (rb_balance_left l x r) = rb_inorder l ++ x :: rb_inorder r := by
  unfold rb_balance_left
  split <;> simp [rb_inorder]

theorem rb_inorder_balance_right (l : rb_node) (x : mk_sched_conn) (r : rb_node) :
    rb_inorder (rb_balance_right l x r) = rb_inorder l ++ x :: rb_inorder r := by
  unfold rb_balance_right
  split <;> simp [rb_inorder]

theorem rb_inorder_insert_repair (fd : Int) (t : rb_node) :
    rb_inorder (rb_insert_repair fd t) = rb_inorder t := by
  induction t with
  | nil => rfl
  | node c l x r ihl ihr =>
    unfold rb_insert_repair
    split
    · cases c <;> simp [rb_inorder, rb_inorder_balance_left, ihl]
    · split
      · cases c <;> simp [rb_inorder, rb_inorder_balance_right, ihr]
      · rfl

theorem rb_inorder_insert_color (fd : Int) (t : rb_node) :
    rb_inorder (rb_insert_color fd t) = rb_inorder t := by
  unfold rb_insert_color
  rw [rb_inorder_paint, rb_inorder_insert_repair]

theorem rb_inorder_fix_left (l : rb_node) (x : mk_sched_conn) (r : rb_node) :
    rb_inorder (rb_fix_left l x r) = rb_inorder l ++ x :: rb_inorder r := by
  unfold rb_fix_left
  split <;> simp [rb_inorder, rb_inorder_balance_right, rb_inorder_paint]

theorem rb_inorder_fix_right (l : rb_node) (x : mk_sched_conn) (r : rb_node) :
    rb_inorder (rb_fix_right l x r) = rb_inorder l ++ x :: rb_inorder r := by
  unfold rb_fix_right
  split <;> simp [rb_inorder, rb_inorder_balance_left, rb_inorder_paint]

theorem rb_split_min_none (t : rb_node) (h : rb_split_min t = none) : t = nil := by
  cases t with
  | nil => rfl
  | node c l x r =>
    unfold rb_split_min at h
    split at h <;> simp at h

theorem rb_split_min_some (t : rb_node) :
    ∀ m t1, rb_split_min t = some (m, t1) → rb_inorder t = m :: rb_inorder t1 := by
  induction t with
  | nil => intro m t1 h; simp [rb_split_min] at h
  | node c l x r ihl _ =>
    intro m t1 h
    unfold rb_split_min at h
    split at h
    · rename_i hl
      have := rb_split_min_none l hl
      subst this
      simp only [Option.some.injEq, Prod.mk.injEq] at h
      obtain ⟨rfl, rfl⟩ := h
      rfl
    · rename_i m1 l1 hl
      simp only [Option.some.injEq, Prod.mk.injEq] at h
      obtain ⟨rfl, rfl⟩ := h
      have e := ihl _ _ hl
      split <;> simp [rb_inorder, rb_inorder_fix_left, e]

/-- Erasing below the node that the descent reaches removes exactly that
record from the in-order sequence. -/
theorem rb_inorder_erase_node_found (fd : Int) (t : rb_node) :
    ∀ sc, get_connection_loop t fd = some sc →
      ∃ pre post, rb_inorder t = pre ++ sc :: post ∧
        rb_inorder (rb_erase_node fd t) = pre ++ post := by
  induction t with
  | nil => intro sc h; simp [get_connection_loop] at h
  | node c l x r ihl ihr =>
    intro sc h
    unfold get_connection_loop at h
    unfold rb_erase_node
    by_cases h1 : fd < x.event.fd
    · rw [if_pos h1] at h
      obtain ⟨pre, post, e1, e2⟩ := ihl sc h
      refine ⟨pre, post ++ x :: rb_inorder r, by simp [rb_inorder, e1], ?_⟩
      rw [if_pos h1]
      split <;> simp [rb_inorder, rb_inorder_fix_left, e2]
    · rw [if_neg h1] at h
      by_cases h2 : fd > x.event.fd
      · rw [if_pos h2] at h
        obtain ⟨pre, post, e1, e2⟩ := ihr sc h
        refine ⟨rb_inorder l ++ x :: pre, post, by simp [rb_inorder, e1], ?_⟩
        rw [if_neg h1, if_pos h2]
        split <;> simp [rb_inorder, rb_inorder_fix_right, e2]
      · rw [if_neg h2] at h
        simp only [Option.some.injEq] at h
        subst h
        refine ⟨rb_inorder l, rb_inorder r, rfl, ?_⟩
        rw [if_neg h1, if_neg h2]
        split
        · rename_i hr
          have := rb_split_min_none r hr
          subst this
          simp [rb_inorder]
        · rename_i m r1 hr
          have e := rb_split_min_some r m r1 hr
          split <;> simp [rb_inorder, rb_inorder_fix_right, e]

/-- Erasing a descriptor that the descent does not find changes nothing in the
in-order sequence. -/
theorem rb_inorder_erase_node_absent (fd : Int) (t : rb_node)
    (h : get_connection_loop t fd = none) :
    rb_inorder (rb_erase_node fd t) = rb_inorder t := by
  induction t with
  | nil => rfl
  | node c l x r ihl ihr =>
    unfold get_connection_loop at h
    unfold rb_erase_node
    by_cases h1 : fd < x.event.fd
    · rw [if_pos h1] at h
      rw [if_pos h1]
      split <;> simp [rb_inorder, rb_inorder_fix_left, ihl h]
    · rw [if_neg h1] at h
      by_cases h2 : fd > x.event.fd
      · rw [if_pos h2] at h
        rw [if_neg h1, if_pos h2]
        split <;> simp [rb_inorder, rb_inorder_fix_right, ihr h]
      · rw [if_neg h2] at h
        simp at h

/-! ## Ordered trees and lookup -/

/-- The order on records that `rb_ordered` asks of the in-order sequence. -/
theorem rb_ordered_iff (t : rb_node) :
    rb_ordered t ↔ (rb_inorder t).Pairwise (fun a b => a.event.fd < b.event.fd) := by
  unfold rb_ordered rb_fds
  rw [List.pairwise_map]

theorem rb_ordered_node (c : rb_color) (l : rb_node) (x : mk_sched_conn) (r : rb_node)
    (h : rb_ordered (node c l x r)) :
    rb_ordered l ∧ rb_ordered r ∧ (∀ a ∈ rb_inorder l, a.event.fd < x.event.fd) ∧
      (∀ b ∈ rb_inorder r, x.event.fd < b.event.fd) := by
  rw [rb_ordered_iff] at h
  simp only [rb_inorder, List.pairwise_append, List.pairwise_cons] at h
  obtain ⟨hl, ⟨hxr, hr⟩, hlr⟩ := h
  exact ⟨(rb_ordered_iff l).2 hl, (rb_ordered_iff r).2 hr,
    fun a ha => hlr a ha x (by simp), hxr⟩

/-- A record returned by the descent carries the descriptor asked for and is
linked in the tree. -/
theorem get_connection_loop_sound (t : rb_node) (fd : Int) :
    ∀ sc, get_connection_loop t fd = some sc → sc ∈ rb_inorder t ∧ sc.event.fd = fd := by
  induction t with
  | nil => intro sc h; simp [get_connection_loop] at h
  | node c l x r ihl ihr =>
    intro sc h
    unfold get_connection_loop at h
    by_cases h1 : fd < x.event.fd
    · rw [if_pos h1] at h
      exact ⟨by simp [rb_inorder, (ihl sc h).1], (ihl sc h).2⟩
    · rw [if_neg h1] at h
      by_cases h2 : fd > x.event.fd
      · rw [if_pos h2] at h
        exact ⟨by simp [rb_inorder, (ihr sc h).1], (ihr sc h).2⟩
      · rw [if_neg h2] at h
        simp only [Option.some.injEq] at h
        subst h
        exact ⟨by simp [rb_inorder], by omega⟩

/-- In an ordered tree the descent finds every linked record by its descriptor:
lookup by fd is unambiguous. -/
theorem get_connection_loop_complete (t : rb_node) (hord : rb_ordered t) :
    ∀ sc, sc ∈ rb_inorder t → get_connection_loop t sc.event.fd = some sc := by
  induction t with
  | nil => intro sc h; simp [rb_inorder] at h
  | node c l x r ihl ihr =>
    intro sc h
    obtain ⟨hl, hr, hlx, hxr⟩ := rb_ordered_node c l x r hord
    simp only [rb_inorder, List.mem_append, List.mem_cons] at h
    unfold get_connection_loop
    rcases h with h | h | h
    · rw [if_pos (hlx sc h)]
      exact ihl hl sc h
    · subst h
      simp
    · have := hxr sc h
      rw [if_neg (by omega), if_pos (by omega)]
      exact ihr hr sc h

theorem get_connection_loop_iff (t : rb_node) (hord : rb_ordered t) (fd : Int)
    (sc : mk_sched_conn) :
    get_connection_loop t fd = some sc ↔ sc ∈ rb_inorder t ∧ sc.event.fd = fd := by
  constructor
  · exact get_connection_loop_sound t fd sc
  · rintro ⟨hm, rfl⟩
    exact get_connection_loop_complete t hord sc hm

/-- Two ordered trees with the same records answer every lookup alike. -/
theorem get_connection_loop_congr (t1 t2 : rb_node) (h1 : rb_ordered t1) (h2 : rb_ordered t2)
    (fd : Int) (hmem : ∀ sc, sc.event.fd = fd → (sc ∈ rb_inorder t1 ↔ sc ∈ rb_inorder t2)) :
    get_connection_loop t1 fd = get_connection_loop t2 fd := by
  apply Option.ext
  intro sc
  simp only [Option.mem_def]
  rw [get_connection_loop_iff t1 h1, get_connection_loop_iff t2 h2]
  constructor
  · rintro ⟨hm, hfd⟩; exact ⟨(hmem sc hfd).1 hm, hfd⟩
  · rintro ⟨hm, hfd⟩; exact ⟨(hmem sc hfd).2 hm, hfd⟩

theorem get_connection_loop_eq_none (t : rb_node) (hord : rb_ordered t) (fd : Int) :
    get_connection_loop t fd = none ↔ ∀ sc ∈ rb_inorder t, sc.event.fd ≠ fd := by
  constructor
  · intro h sc hm hfd
    have := get_connection_loop_complete t hord sc hm
    rw [hfd, h] at this
    simp at this
  · intro h
    cases hg : get_connection_loop t fd with
    | none => rfl
    | some sc =>
      have := get_connection_loop_sound t fd sc hg
      exact absurd this.2 (h sc this.1)

/-! ## Linking a new record -/

/-- The descent of `mk_sched_add_connection` meets a record with the same
descriptor exactly when the descent of `mk_sched_get_connection` finds one. -/
theorem add_connection_link_eq_none (t : rb_node) (conn : mk_sched_conn) :
    add_connection_link t conn = none ↔ get_connection_loop t conn.event.fd ≠ none := by
  induction t with
  | nil => simp [add_connection_link, get_connection_loop]
  | node c l x r ihl ihr =>
    unfold add_connection_link get_connection_loop
    by_cases h1 : conn.event.fd < x.event.fd
    · simp only [if_pos h1, Option.map_eq_none']
      exact ihl
    · by_cases h2 : conn.event.fd > x.event.fd
      · simp only [if_neg h1, if_pos h2, Option.map_eq_none']
        exact ihr
      · simp [if_neg h1, if_neg h2]

/-- Linking inserts the new record at one place of the in-order sequence, and
in an ordered tree that place is between the smaller and the larger
descriptors. -/
theorem add_connection_link_inorder (t : rb_node) (conn : mk_sched_conn) :
    ∀ t1, add_connection_link t conn = some t1 →
      ∃ pre post, rb_inorder t = pre ++ post ∧ rb_inorder t1 = pre ++ conn :: post ∧
        (rb_ordered t → (∀ a ∈ pre, a.event.fd < conn.event.fd) ∧
          (∀ b ∈ post, conn.event.fd < b.event.fd)) := by
  induction t with
  | nil =>
    intro t1 h
    simp only [add_connection_link, Option.some.injEq] at h
    subst h
    exact ⟨[], [], rfl, rfl, fun _ => ⟨by simp, by simp⟩⟩
  | node c l x r ihl ihr =>
    intro t1 h
    unfold add_connection_link at h
    by_cases h1 : conn.event.fd < x.event.fd
    · rw [if_pos h1] at h
      obtain ⟨l1, hl1, rfl⟩ := Option.map_eq_some'.1 h
      obtain ⟨pre, post, e1, e2, ho⟩ := ihl l1 hl1
      refine ⟨pre, post ++ x :: rb_inorder r, by simp [rb_inorder, e1],
        by simp [rb_inorder, e2], ?_⟩
      intro hord
      obtain ⟨hl, _, _, hxr⟩ := rb_ordered_node c l x r hord
      refine ⟨(ho hl).1, ?_⟩
      intro b hb
      rcases List.mem_append.1 hb with hb | hb
      · exact (ho hl).2 b hb
      · rcases List.mem_cons.1 hb with hb | hb
        · subst hb; exact h1
        · exact lt_trans h1 (hxr b hb)
    · rw [if_neg h1] at h
      by_cases h2 : conn.event.fd > x.event.fd
      · rw [if_pos h2] at h
        obtain ⟨r1, hr1, rfl⟩ := Option.map_eq_some'.1 h
        obtain ⟨pre, post, e1, e2, ho⟩ := ihr r1 hr1
        refine ⟨rb_inorder l ++ x :: pre, post, by simp [rb_inorder, e1],
          by simp [rb_inorder, e2], ?_⟩
        intro hord
        obtain ⟨_, hr, hlx, _⟩ := rb_ordered_node c l x r hord
        refine ⟨?_, (ho hr).2⟩
        intro a ha
        rcases List.mem_append.1 ha with ha | ha
        · exact lt_trans (hlx a ha) h2
        · rcases List.mem_cons.1 ha with ha | ha
          · subst ha; exact h2
          · exact (ho hr).1 a ha
      · rw [if_neg h2] at h
        simp at h

/-- Inserting a record between the smaller and the larger descriptors of an
ordered sequence keeps it ordered. -/
theorem pairwise_insert_middle (pre post : List mk_sched_conn) (conn : mk_sched_conn)
    (h : (pre ++ post).Pairwise (fun a b => a.event.fd < b.event.fd))
    (h1 : ∀ a ∈ pre, a.event.fd < conn.event.fd)
    (h2 : ∀ b ∈ post, conn.event.fd < b.event.fd) :
    (pre ++ conn :: post).Pairwise (fun a b => a.event.fd < b.event.fd) := by
  rw [List.pairwise_append] at h ⊢
  obtain ⟨hp, hq, hpq⟩ := h
  refine ⟨hp, List.pairwise_cons.2 ⟨h2, hq⟩, ?_⟩
  intro a ha b hb
  rcases List.mem_cons.1 hb with hb | hb
  · subst hb; exact h1 a ha
  · exact hpq a ha b hb

/-- Removing one record of an ordered sequence keeps it ordered and leaves no
record with the removed descriptor. -/
theorem pairwise_remove_middle (pre post : List mk_sched_conn) (sc : mk_sched_conn)
    (h : (pre ++ sc :: post).Pairwise (fun a b => a.event.fd < b.event.fd)) :
    (pre ++ post).Pairwise (fun a b => a.event.fd < b.event.fd) ∧
      ∀ a ∈ pre ++ post, a.event.fd ≠ sc.event.fd := by
  rw [List.pairwise_append] at h
  obtain ⟨hp, hq, hpq⟩ := h
  obtain ⟨hsc, hq⟩ := List.pairwise_cons.1 hq
  refine ⟨List.pairwise_append.2 ⟨hp, hq, fun a ha b hb => hpq a ha b (by simp [hb])⟩, ?_⟩
  intro a ha
  rcases List.mem_append.1 ha with ha | ha
  · exact ne_of_lt (hpq a ha sc (by simp))
  · exact ne_of_gt (hsc a ha)

/-! ## `mk_sched_add_connection` -/

/-- The outcome of `mk_sched_add_connection` once stage 10 lets the connection
through and the allocation succeeds. -/
theorem mk_sched_add_connection_accepted (ret : mk_plugin_ret) (now fd : Int)
    (sched : sched_list_node) (hret : ret ≠ mk_plugin_ret.MK_PLUGIN_RET_CLOSE_CONX) :
    mk_sched_add_connection ret true now fd sched =
      match add_connection_link sched.rb_queue (pending_conn fd now) with
      | none =>
        add_outcome.aborted
          [sched_step.mk_plugin_stage_run_10 fd, sched_step.mk_mem_malloc fd, sched_step.mk_bug]
      | some linked =>
        add_outcome.returned (some (pending_conn fd now))
          { sched with rb_queue := rb_insert_color fd linked }
          [sched_step.mk_plugin_stage_run_10 fd, sched_step.mk_mem_malloc fd,
           sched_step.rb_link_node fd, sched_step.rb_insert_color fd] := by
  unfold mk_sched_add_connection
  rw [if_neg hret]
  simp only [Bool.true_eq_false, if_false]
  rfl

/-- A successful insert into an ordered index: the new index is ordered and
holds the old records and the new one. -/
theorem add_connection_link_ordered (t linked : rb_node) (conn : mk_sched_conn) (fd : Int)
    (hord : rb_ordered t) (h : add_connection_link t conn = some linked) :
    rb_ordered (rb_insert_color fd linked) ∧
      ∀ sc, sc ∈ rb_inorder (rb_insert_color fd linked) ↔ sc = conn ∨ sc ∈ rb_inorder t := by
  obtain ⟨pre, post, e1, e2, ho⟩ := add_connection_link_inorder t conn linked h
  constructor
  · rw [rb_ordered_iff, rb_inorder_insert_color, e2]
    apply pairwise_insert_middle pre post conn _ (ho hord).1 (ho hord).2
    rw [← e1]
    exact (rb_ordered_iff t).1 hord
  · intro sc
    rw [rb_inorder_insert_color, e2, e1]
    simp only [List.mem_append, List.mem_cons]
    tauto

/-- C4. In a worker whose index is ordered as a search tree (descriptors
pairwise distinct) and does not hold `f`, when stage 10 does not refuse and the
allocation succeeds, `mk_sched_add_connection(f, sched)` returns a record with
`event.fd = f` and status pending; afterwards `mk_sched_get_connection(sched, f)`
returns that record and every other descriptor is looked up as before. -/
theorem add_connection_then_get (ret : mk_plugin_ret) (now f : Int) (sched : sched_list_node)
    (hret : ret ≠ mk_plugin_ret.MK_PLUGIN_RET_CLOSE_CONX)
    (hord : rb_ordered sched.rb_queue) (hf : f ∉ rb_fds sched.rb_queue) :
    ∃ conn sched1 steps,
      mk_sched_add_connection ret true now f sched
        = add_outcome.returned (some conn) sched1 steps ∧
      conn.event.fd = f ∧ conn.status = MK_SCHEDULER_CONN_PENDING ∧
      (mk_sched_get_connection (some sched1) f).1 = some conn ∧
      ∀ g, g ≠ f →
        (mk_sched_get_connection (some sched1) g).1
          = (mk_sched_get_connection (some sched) g).1 := by
  have habsent : get_connection_loop sched.rb_queue (pending_conn f now).event.fd = none := by
    rw [get_connection_loop_eq_none _ hord]
    intro sc hsc hfd
    exact hf (by
      unfold rb_fds
      exact List.mem_map.2 ⟨sc, hsc, hfd⟩)
  cases hl : add_connection_link sched.rb_queue (pending_conn f now) with
  | none =>
    exact absurd habsent ((add_connection_link_eq_none _ _).1 hl)
  | some linked =>
    obtain ⟨ho, hmem⟩ := add_connection_link_ordered _ linked _ f hord hl
    refine ⟨pending_conn f now, { sched with rb_queue := rb_insert_color f linked },
      [sched_step.mk_plugin_stage_run_10 f, sched_step.mk_mem_malloc f,
       sched_step.rb_link_node f, sched_step.rb_insert_color f], ?_, rfl, rfl, ?_, ?_⟩
    · rw [mk_sched_add_connection_accepted ret now f sched hret, hl]
    · show get_connection_loop (rb_insert_color f linked) f = some (pending_conn f now)
      exact get_connection_loop_complete _ ho (pending_conn f now) ((hmem _).2 (Or.inl rfl))
    · intro g hg
      show get_connection_loop (rb_insert_color f linked) g = get_connection_loop sched.rb_queue g
      apply get_connection_loop_congr _ _ ho hord
      intro sc hsc
      rw [hmem]
      constructor
      · rintro (h | h)
        · subst h
          exact absurd hsc.symm hg
        · exact h
      · exact Or.inr

/-- C4 on a worker that indexes descriptors 3 and 7: descriptor 5 is added. -/
theorem add_connection_then_get_witness :
    ∃ conn sched1 steps,
      mk_sched_add_connection mk_plugin_ret.MK_PLUGIN_RET_CONTINUE true 0 5 two_conn_worker
        = add_outcome.returned (some conn) sched1 steps ∧
      conn.event.fd = 5 ∧ conn.status = MK_SCHEDULER_CONN_PENDING ∧
      (mk_sched_get_connection (some sched1) 5).1 = some conn ∧
      ∀ g, g ≠ 5 →
        (mk_sched_get_connection (some sched1) g).1
          = (mk_sched_get_connection (some two_conn_worker) g).1 :=
  add_connection_then_get mk_plugin_ret.MK_PLUGIN_RET_CONTINUE 0 5 two_conn_worker
    (by decide) (by decide) (by decide)

/-- C5. In a worker whose (ordered) index already holds descriptor `f`, a call
`mk_sched_add_connection(f, sched)` that stage 10 lets through never returns a
record: once the allocation has succeeded it ends in the `mk_bug` abort, and a
call that does return (the allocation failed) returns `NULL` and leaves the
worker, so also its index, as it was. -/
theorem add_connection_duplicate_aborts (ret : mk_plugin_ret) (malloc_ok : Bool) (now f : Int)
    (sched : sched_list_node) (hret : ret ≠ mk_plugin_ret.MK_PLUGIN_RET_CLOSE_CONX)
    (hord : rb_ordered sched.rb_queue) (hf : f ∈ rb_fds sched.rb_queue) :
    (malloc_ok = true →
      ∃ steps, mk_sched_add_connection ret malloc_ok now f sched = add_outcome.aborted steps ∧
        sched_step.mk_bug ∈ steps) ∧
    (∀ conn sched1 steps, mk_sched_add_connection ret malloc_ok now f sched
        ≠ add_outcome.returned (some conn) sched1 steps) ∧
    (∀ r sched1 steps, mk_sched_add_connection ret malloc_ok now f sched
        = add_outcome.returned r sched1 steps → r = none ∧ sched1 = sched) := by
  obtain ⟨sc, hsc, hfd⟩ := List.mem_map.1 (show f ∈ rb_fds sched.rb_queue from hf)
  have hl : add_connection_link sched.rb_queue (pending_conn f now) = none := by
    rw [add_connection_link_eq_none]
    have := get_connection_loop_complete _ hord sc hsc
    rw [hfd] at this
    show get_connection_loop sched.rb_queue f ≠ none
    rw [this]; simp
  cases malloc_ok with
  | false =>
    have e : mk_sched_add_connection ret false now f sched =
        add_outcome.returned none sched
          [sched_step.mk_plugin_stage_run_10 f, sched_step.mk_mem_malloc f] := by
      unfold mk_sched_add_connection
      rw [if_neg hret]
      simp
    refine ⟨by simp, ?_, ?_⟩
    · intro conn sched1 steps h
      rw [e] at h
      simp at h
    · intro r sched1 steps h
      rw [e] at h
      simp only [add_outcome.returned.injEq] at h
      exact ⟨h.1.symm, h.2.1.symm⟩
  | true =>
    have e := mk_sched_add_connection_accepted ret now f sched hret
    rw [hl] at e
    refine ⟨fun _ => ⟨_, e, by simp⟩, ?_, ?_⟩
    · intro conn sched1 steps h
      rw [e] at h
      simp at h
    · intro r sched1 steps h
      rw [e] at h
      simp at h

/-- C5 on a worker that indexes descriptors 3 and 7: adding 7 again aborts. -/
theorem add_connection_duplicate_aborts_witness :
    mk_sched_add_connection mk_plugin_ret.MK_PLUGIN_RET_CONTINUE true 0 7 two_conn_worker
      = add_outcome.aborted
          [sched_step.mk_plugin_stage_run_10 7, sched_step.mk_mem_malloc 7,
           sched_step.mk_bug] ∧
    ∀ conn sched1 steps,
      mk_sched_add_connection mk_plugin_ret.MK_PLUGIN_RET_CONTINUE true 0 7 two_conn_worker
        ≠ add_outcome.returned (some conn) sched1 steps :=
  ⟨by decide,
   (add_connection_duplicate_aborts mk_plugin_ret.MK_PLUGIN_RET_CONTINUE true 0 7
      two_conn_worker (by decide) (by decide) (by decide)).2.1⟩

/-! ## `mk_sched_remove_client` and `mk_sched_drop_connection` -/

theorem rb_inorder_erase_found (fd : Int) (t : rb_node) (sc : mk_sched_conn)
    (h : get_connection_loop t fd = some sc) :
    ∃ pre post, rb_inorder t = pre ++ sc :: post ∧
      rb_inorder (rb_erase sc.event.fd t) = pre ++ post := by
  have hfd := (get_connection_loop_sound t fd sc h).2
  obtain ⟨pre, post, e1, e2⟩ := rb_inorder_erase_node_found fd t sc h
  refine ⟨pre, post, e1, ?_⟩
  unfold rb_erase
  rw [rb_inorder_paint, hfd, e2]

/-- The function `mk_sched_remove_client` on a descriptor that the index holds. -/
theorem mk_sched_remove_client_found (sched : sched_list_node) (fd : Int) (sc : mk_sched_conn)
    (h : get_connection_loop sched.rb_queue fd = some sc) :
    mk_sched_remove_client sched fd =
      (0,
       { sched with
         loop := mk_event_del sched.loop fd,
         closed_connections := ull_incr sched.closed_connections,
         rb_queue := rb_erase sc.event.fd sched.rb_queue },
       [sched_step.mk_event_del fd, sched_step.mk_sched_get_connection fd,
        sched_step.mk_plugin_stage_run_50 fd, sched_step.closed_connections_incr,
        sched_step.rb_erase fd, sched_step.mk_mem_free fd, sched_step.mk_socket_close fd]) := by
  simp [mk_sched_remove_client, mk_sched_get_connection, h]

/-- The function `mk_sched_remove_client` on a descriptor that the index does not hold. -/
theorem mk_sched_remove_client_absent (sched : sched_list_node) (fd : Int)
    (h : get_connection_loop sched.rb_queue fd = none) :
    mk_sched_remove_client sched fd =
      (-1, { sched with loop := mk_event_del sched.loop fd },
       [sched_step.mk_event_del fd, sched_step.mk_sched_get_connection fd]) := by
  simp [mk_sched_remove_client, mk_sched_get_connection, h]

/-- The function `mk_sched_drop_connection` on a descriptor that the worker's index holds. -/
theorem mk_sched_drop_connection_found (socket : Int) (th : sched_thread) (s : sched_list_node)
    (sc : mk_sched_conn) (hw : th.worker_sched_node = some s)
    (h : get_connection_loop s.rb_queue socket = some sc) :
    mk_sched_drop_connection socket th =
      (0,
       { worker_sched_node := some
           { s with
             loop := mk_event_del s.loop socket,
             closed_connections := ull_incr s.closed_connections,
             rb_queue := rb_erase sc.event.fd s.rb_queue },
         cs_list := th.cs_list.filter (fun cs => decide (cs.socket ≠ socket)),
         cs_incomplete := th.cs_incomplete.filter (fun cs => decide (cs.socket ≠ socket)),
         trace := th.trace ++
           [sched_step.mk_http_session_remove socket, sched_step.mk_sched_get_connection socket,
            sched_step.mk_event_del socket, sched_step.mk_sched_get_connection socket,
            sched_step.mk_plugin_stage_run_50 socket, sched_step.closed_connections_incr,
            sched_step.rb_erase socket, sched_step.mk_mem_free socket,
            sched_step.mk_socket_close socket] }) := by
  simp [mk_sched_drop_connection, mk_http_session_remove, mk_sched_get_thread_conf,
    mk_sched_get_connection, hw, h, mk_sched_remove_client_found s socket sc h]

/-- The function `mk_sched_drop_connection` on a descriptor that the worker's index does
not hold: only the session is removed. -/
theorem mk_sched_drop_connection_absent (socket : Int) (th : sched_thread) (s : sched_list_node)
    (hw : th.worker_sched_node = some s)
    (h : get_connection_loop s.rb_queue socket = none) :
    mk_sched_drop_connection socket th =
      (0,
       { worker_sched_node := some s,
         cs_list := th.cs_list.filter (fun cs => decide (cs.socket ≠ socket)),
         cs_incomplete := th.cs_incomplete.filter (fun cs => decide (cs.socket ≠ socket)),
         trace := th.trace ++
           [sched_step.mk_http_session_remove socket,
            sched_step.mk_sched_get_connection socket] }) := by
  simp [mk_sched_drop_connection, mk_http_session_remove, mk_sched_get_thread_conf,
    mk_sched_get_connection, hw, h]

/-- Erasing the record found for `fd` from an ordered index: the index stays
ordered, `fd` is no longer found and every other descriptor is found as
before. -/
theorem rb_erase_lookup (t : rb_node) (fd : Int) (sc : mk_sched_conn) (hord : rb_ordered t)
    (h : get_connection_loop t fd = some sc) :
    rb_ordered (rb_erase sc.event.fd t) ∧
      get_connection_loop (rb_erase sc.event.fd t) fd = none ∧
      ∀ g, g ≠ fd →
        get_connection_loop (rb_erase sc.event.fd t) g = get_connection_loop t g := by
  have hfd := (get_connection_loop_sound t fd sc h).2
  obtain ⟨pre, post, e1, e2⟩ := rb_inorder_erase_found fd t sc h
  have hp := (rb_ordered_iff t).1 hord
  rw [e1] at hp
  obtain ⟨hp1, hp2⟩ := pairwise_remove_middle pre post sc hp
  have ho : rb_ordered (rb_erase sc.event.fd t) := by
    rw [rb_ordered_iff, e2]; exact hp1
  refine ⟨ho, ?_, ?_⟩
  · rw [get_connection_loop_eq_none _ ho, e2]
    intro a ha
    rw [← hfd]
    exact hp2 a ha
  · intro g hg
    apply get_connection_loop_congr _ _ ho hord
    intro a ha
    rw [e2, e1]
    simp only [List.mem_append, List.mem_cons]
    constructor
    · rintro (h1 | h1)
      · exact Or.inl h1
      · exact Or.inr (Or.inr h1)
    · rintro (h1 | h1 | h1)
      · exact Or.inl h1
      · subst h1
        exact absurd (ha.symm.trans hfd) hg
      · exact Or.inr h1

theorem mem_mk_event_del (loop : List mk_event_reg) (fd : Int) :
    ∀ r ∈ mk_event_del loop fd, r.fd ≠ fd := by
  intro r hr
  unfold mk_event_del at hr
  simpa using (List.mem_filter.1 hr).2

/-- C6 as stated fails: on a fresh worker the read end of the notification
channel (descriptor 5) is registered in the event loop and is not indexed, and
after `mk_sched_drop_connection(5)` it is still registered. -/
theorem drop_connection_keeps_unindexed_registration :
    ∃ s1, (mk_sched_drop_connection 5 (thread_of notif_only_worker)).2.worker_sched_node
        = some s1 ∧
      ¬ (∀ r ∈ s1.loop, r.fd ≠ 5) := by
  refine ⟨notif_only_worker, by decide, by decide⟩

/-- The state `mk_sched_drop_connection` leaves on a worker with an ordered
index: the descriptor is no longer indexed, other lookups are unchanged, and
the event loop loses the descriptor exactly when it was indexed. -/
theorem mk_sched_drop_connection_spec (f : Int) (th : sched_thread) (s : sched_list_node)
    (hw : th.worker_sched_node = some s) (hord : rb_ordered s.rb_queue) :
    ∃ s1, (mk_sched_drop_connection f th).1 = 0 ∧
      (mk_sched_drop_connection f th).2.worker_sched_node = some s1 ∧
      (mk_sched_get_connection (some s1) f).1 = none ∧
      (∀ g, g ≠ f →
        (mk_sched_get_connection (some s1) g).1 = (mk_sched_get_connection (some s) g).1) ∧
      ((mk_sched_get_connection (some s) f).1 ≠ none → ∀ r ∈ s1.loop, r.fd ≠ f) ∧
      ((mk_sched_get_connection (some s) f).1 = none → s1.loop = s.loop) := by
  cases h : get_connection_loop s.rb_queue f with
  | none =>
    rw [mk_sched_drop_connection_absent f th s hw h]
    refine ⟨s, rfl, rfl, h, fun _ _ => rfl, ?_, fun _ => rfl⟩
    intro hne
    exact absurd h hne
  | some sc =>
    rw [mk_sched_drop_connection_found f th s sc hw h]
    obtain ⟨_, h1, h2⟩ := rb_erase_lookup s.rb_queue f sc hord h
    refine ⟨_, rfl, rfl, h1, h2, fun _ => mem_mk_event_del s.loop f, ?_⟩
    intro hn
    have : get_connection_loop s.rb_queue f = none := hn
    rw [h] at this
    simp at this

/-- C6, amended. On a worker whose index is ordered as a search tree,
`mk_sched_drop_connection(f)` returns 0 and afterwards
`mk_sched_get_connection(sched, f)` is absent and every other descriptor is
looked up as before; `f` is not registered in the worker's event loop when `f`
was indexed before the call, and when it was not indexed the event loop is
left as it was. -/
theorem drop_connection_lookup_absent (f : Int) (th : sched_thread) (s : sched_list_node)
    (hw : th.worker_sched_node = some s) (hord : rb_ordered s.rb_queue) :
    ∃ s1, (mk_sched_drop_connection f th).1 = 0 ∧
      (mk_sched_drop_connection f th).2.worker_sched_node = some s1 ∧
      (mk_sched_get_connection (some s1) f).1 = none ∧
      (∀ g, g ≠ f →
        (mk_sched_get_connection (some s1) g).1 = (mk_sched_get_connection (some s) g).1) ∧
      ((mk_sched_get_connection (some s) f).1 ≠ none → ∀ r ∈ s1.loop, r.fd ≠ f) ∧
      ((mk_sched_get_connection (some s) f).1 = none → s1.loop = s.loop) :=
  mk_sched_drop_connection_spec f th s hw hord

/-- C6, amended, on a worker that indexes descriptors 3 and 7: descriptor 7 is
dropped. -/
theorem drop_connection_lookup_absent_witness :
    ∃ s1, (mk_sched_drop_connection 7 (thread_of two_conn_worker)).1 = 0 ∧
      (mk_sched_drop_connection 7 (thread_of two_conn_worker)).2.worker_sched_node = some s1 ∧
      (mk_sched_get_connection (some s1) 7).1 = none ∧
      (∀ g, g ≠ 7 →
        (mk_sched_get_connection (some s1) g).1
          = (mk_sched_get_connection (some two_conn_worker) g).1) ∧
      ((mk_sched_get_connection (some two_conn_worker) 7).1 ≠ none →
        ∀ r ∈ s1.loop, r.fd ≠ 7) ∧
      ((mk_sched_get_connection (some two_conn_worker) 7).1 = none →
        s1.loop = two_conn_worker.loop) :=
  drop_connection_lookup_absent 7 (thread_of two_conn_worker) two_conn_worker rfl (by decide)

/-- C7. On a worker whose index is ordered as a search tree, a second
`mk_sched_drop_connection(f)` right after the first leaves the worker entry
(index, counters, event-loop registrations) and the sessions exactly as the
first call left them, returns 0, and takes two steps only, the session removal
and the index lookup: no stage-50 hook, no free, no socket close. -/
theorem drop_connection_idempotent (f : Int) (th : sched_thread) (s : sched_list_node)
    (hw : th.worker_sched_node = some s) (hord : rb_ordered s.rb_queue) :
    (mk_sched_drop_connection f (mk_sched_drop_connection f th).2).1 = 0 ∧
    (mk_sched_drop_connection f (mk_sched_drop_connection f th).2).2.worker_sched_node
      = (mk_sched_drop_connection f th).2.worker_sched_node ∧
    (mk_sched_drop_connection f (mk_sched_drop_connection f th).2).2.cs_list
      = (mk_sched_drop_connection f th).2.cs_list ∧
    (mk_sched_drop_connection f (mk_sched_drop_connection f th).2).2.cs_incomplete
      = (mk_sched_drop_connection f th).2.cs_incomplete ∧
    (mk_sched_drop_connection f (mk_sched_drop_connection f th).2).2.trace
      = (mk_sched_drop_connection f th).2.trace ++
          [sched_step.mk_http_session_remove f, sched_step.mk_sched_get_connection f] := by
  obtain ⟨s1, _, hw1, habs, _, _, _⟩ := mk_sched_drop_connection_spec f th s hw hord
  have hcs : (mk_sched_drop_connection f th).2.cs_list
      = th.cs_list.filter (fun cs => decide (cs.socket ≠ f)) := by
    cases h : get_connection_loop s.rb_queue f with
    | none => rw [mk_sched_drop_connection_absent f th s hw h]
    | some sc => rw [mk_sched_drop_connection_found f th s sc hw h]
  have hci : (mk_sched_drop_connection f th).2.cs_incomplete
      = th.cs_incomplete.filter (fun cs => decide (cs.socket ≠ f)) := by
    cases h : get_connection_loop s.rb_queue f with
    | none => rw [mk_sched_drop_connection_absent f th s hw h]
    | some sc => rw [mk_sched_drop_connection_found f th s sc hw h]
  rw [mk_sched_drop_connection_absent f (mk_sched_drop_connection f th).2 s1 hw1 habs]
  refine ⟨rfl, hw1.symm, ?_, ?_, rfl⟩
  · show List.filter _ (mk_sched_drop_connection f th).2.cs_list = _
    rw [hcs, List.filter_filter]
    simp
  · show List.filter _ (mk_sched_drop_connection f th).2.cs_incomplete = _
    rw [hci, List.filter_filter]
    simp

/-- C7 on a worker that indexes descriptors 3 and 7, with a session on 7. -/
theorem drop_connection_idempotent_witness :
    (mk_sched_drop_connection 7 (mk_sched_drop_connection 7 session_thread).2).1 = 0 ∧
    (mk_sched_drop_connection 7 (mk_sched_drop_connection 7 session_thread).2).2.worker_sched_node
      = (mk_sched_drop_connection 7 session_thread).2.worker_sched_node ∧
    (mk_sched_drop_connection 7 (mk_sched_drop_connection 7 session_thread).2).2.cs_list
      = (mk_sched_drop_connection 7 session_thread).2.cs_list ∧
    (mk_sched_drop_connection 7 (mk_sched_drop_connection 7 session_thread).2).2.cs_incomplete
      = (mk_sched_drop_connection 7 session_thread).2.cs_incomplete ∧
    (mk_sched_drop_connection 7 (mk_sched_drop_connection 7 session_thread).2).2.trace
      = (mk_sched_drop_connection 7 session_thread).2.trace ++
          [sched_step.mk_http_session_remove 7, sched_step.mk_sched_get_connection 7] :=
  drop_connection_idempotent 7 session_thread two_conn_worker rfl (by decide)

/-- C8. For a descriptor `f` that the worker's index holds,
`mk_sched_drop_connection(f)` takes exactly these steps, in this order: session
removal, index lookup, event-loop deregistration, the lookup repeated inside
`mk_sched_remove_client`, stage-50 hook, closed-counter increment, index erase,
record free, socket close. The eight effects of the specification occur in the
specified order, and the deregistration and the erase precede the close. -/
theorem drop_connection_step_order (f : Int) (th : sched_thread) (s : sched_list_node)
    (sc : mk_sched_conn) (hw : th.worker_sched_node = some s)
    (hidx : (mk_sched_get_connection (some s) f).1 = some sc) :
    (mk_sched_drop_connection f th).2.trace = th.trace ++
      [sched_step.mk_http_session_remove f, sched_step.mk_sched_get_connection f,
       sched_step.mk_event_del f, sched_step.mk_sched_get_connection f,
       sched_step.mk_plugin_stage_run_50 f, sched_step.closed_connections_incr,
       sched_step.rb_erase f, sched_step.mk_mem_free f, sched_step.mk_socket_close f] ∧
    ∃ steps, (mk_sched_drop_connection f th).2.trace = th.trace ++ steps ∧
      List.Sublist
        [sched_step.mk_http_session_remove f, sched_step.mk_sched_get_connection f,
         sched_step.mk_event_del f, sched_step.mk_plugin_stage_run_50 f,
         sched_step.closed_connections_incr, sched_step.rb_erase f,
         sched_step.mk_mem_free f, sched_step.mk_socket_close f] steps ∧
      steps.count (sched_step.mk_socket_close f) = 1 ∧
      steps.getLast? = some (sched_step.mk_socket_close f) := by
  have h : get_connection_loop s.rb_queue f = some sc := hidx
  rw [mk_sched_drop_connection_found f th s sc hw h]
  refine ⟨rfl, _, rfl, ?_, ?_, ?_⟩
  · exact (List.Sublist.refl _).cons₂ _ |>.cons₂ _ |>.cons₂ _ |>.cons₂ _ |>.cons₂ _
      |>.cons _ |>.cons₂ _ |>.cons₂ _ |>.cons₂ _
  · simp [List.count_cons]
  · simp

/-- C8 on a worker that indexes descriptors 3 and 7: descriptor 3 is dropped. -/
theorem drop_connection_step_order_witness :
    (mk_sched_drop_connection 3 (thread_of two_conn_worker)).2.trace =
      [sched_step.mk_http_session_remove 3, sched_step.mk_sched_get_connection 3,
       sched_step.mk_event_del 3, sched_step.mk_sched_get_connection 3,
       sched_step.mk_plugin_stage_run_50 3, sched_step.closed_connections_incr,
       sched_step.rb_erase 3, sched_step.mk_mem_free 3, sched_step.mk_socket_close 3] :=
  (drop_connection_step_order 3 (thread_of two_conn_worker) two_conn_worker (pending_conn 3 0)
    rfl (by decide)).1

/-! ## The live-count predicate -/

theorem mk_sched_remove_client_invariant (s : sched_list_node) (f : Int)
    (hr : s.accepted_connections < 2 ^ 64) (hinv : live_count_invariant s) :
    live_count_invariant (mk_sched_remove_client s f).2.1 ∧
      (mk_sched_remove_client s f).2.1.accepted_connections = s.accepted_connections := by
  obtain ⟨hle, hsize⟩ := hinv
  cases h : get_connection_loop s.rb_queue f with
  | none =>
    rw [mk_sched_remove_client_absent s f h]
    exact ⟨⟨hle, hsize⟩, rfl⟩
  | some sc =>
    rw [mk_sched_remove_client_found s f sc h]
    obtain ⟨pre, post, e1, e2⟩ := rb_inorder_erase_found f s.rb_queue sc h
    refine ⟨?_, rfl⟩
    unfold live_count_invariant rb_size
    simp only [e2]
    unfold rb_size at hsize
    rw [e1] at hsize
    simp only [List.length_append, List.length_cons] at hsize ⊢
    unfold ull_incr ULLONG_MODULUS
    omega

theorem mk_sched_drop_connection_invariant (f : Int) (th : sched_thread) (s : sched_list_node)
    (hw : th.worker_sched_node = some s) (hr : s.accepted_connections < 2 ^ 64)
    (hinv : live_count_invariant s) :
    ∃ s1, (mk_sched_drop_connection f th).2.worker_sched_node = some s1 ∧
      s1.accepted_connections = s.accepted_connections ∧ live_count_invariant s1 := by
  cases h : get_connection_loop s.rb_queue f with
  | none =>
    rw [mk_sched_drop_connection_absent f th s hw h]
    exact ⟨s, rfl, rfl, hinv⟩
  | some sc =>
    rw [mk_sched_drop_connection_found f th s sc hw h]
    have := mk_sched_remove_client_invariant s f hr hinv
    rw [mk_sched_remove_client_found s f sc h] at this
    exact ⟨_, rfl, this.2, this.1⟩

theorem check_timeouts_incoming_invariant (cfg : mk_server_config) (now : Int)
    (queue : List mk_sched_conn) :
    ∀ (th : sched_thread) (s : sched_list_node), th.worker_sched_node = some s →
      s.accepted_connections < 2 ^ 64 → live_count_invariant s →
      ∃ s1, (check_timeouts_incoming cfg now queue th).worker_sched_node = some s1 ∧
        s1.accepted_connections = s.accepted_connections ∧ live_count_invariant s1 := by
  induction queue with
  | nil => intro th s hw _ hinv; exact ⟨s, hw, rfl, hinv⟩
  | cons c rest ih =>
    intro th s hw hr hinv
    unfold check_timeouts_incoming
    simp only []
    split
    · obtain ⟨s1, hw1, ha1, hinv1⟩ :=
        mk_sched_drop_connection_invariant c.event.fd th s hw hr hinv
      obtain ⟨s2, hw2, ha2, hinv2⟩ := ih _ s1 hw1 (by rw [ha1]; exact hr) hinv1
      exact ⟨s2, hw2, by rw [ha2, ha1], hinv2⟩
    · exact ih th s hw hr hinv

theorem check_timeouts_sessions_invariant (cfg : mk_server_config) (now : Int)
    (sessions : List mk_http_session) :
    ∀ (th : sched_thread) (s : sched_list_node), th.worker_sched_node = some s →
      s.accepted_connections < 2 ^ 64 → live_count_invariant s →
      ∃ s1, (check_timeouts_sessions cfg now sessions th).worker_sched_node = some s1 ∧
        s1.accepted_connections = s.accepted_connections ∧ live_count_invariant s1 := by
  induction sessions with
  | nil => intro th s hw _ hinv; exact ⟨s, hw, rfl, hinv⟩
  | cons c rest ih =>
    intro th s hw hr hinv
    have hdrop : ∃ s1,
        (check_timeouts_sessions cfg now rest
          (mk_sched_drop_connection c.socket th).2).worker_sched_node = some s1 ∧
        s1.accepted_connections = s.accepted_connections ∧ live_count_invariant s1 := by
      obtain ⟨s1, hw1, ha1, hinv1⟩ :=
        mk_sched_drop_connection_invariant c.socket th s hw hr hinv
      obtain ⟨s2, hw2, ha2, hinv2⟩ := ih _ s1 hw1 (by rw [ha1]; exact hr) hinv1
      exact ⟨s2, hw2, by rw [ha2, ha1], hinv2⟩
    unfold check_timeouts_sessions
    simp only []
    split_ifs
    · exact hdrop
    · exact ih th s hw hr hinv
    · exact hdrop
    · exact ih th s hw hr hinv

/-- What a returning `mk_sched_add_connection` does to the worker entry: the
counters are not touched, and the index grows by one record exactly when a
record is returned. -/
theorem mk_sched_add_connection_frame (ret : mk_plugin_ret) (malloc_ok : Bool) (now f : Int)
    (s : sched_list_node) (r : Option mk_sched_conn) (s1 : sched_list_node)
    (steps : List sched_step)
    (h : mk_sched_add_connection ret malloc_ok now f s = add_outcome.returned r s1 steps) :
    s1.accepted_connections = s.accepted_connections ∧
      s1.closed_connections = s.closed_connections ∧
      rb_size s1.rb_queue = rb_size s.rb_queue + (if r.isSome then 1 else 0) ∧
      (r = none → s1 = s) := by
  unfold mk_sched_add_connection at h
  split at h
  · simp only [add_outcome.returned.injEq] at h
    obtain ⟨rfl, rfl, _⟩ := h
    simp
  · split at h
    · simp only [add_outcome.returned.injEq] at h
      obtain ⟨rfl, rfl, _⟩ := h
      simp
    · simp only [] at h
      split at h
      · simp at h
      · rename_i linked hl
        simp only [add_outcome.returned.injEq] at h
        obtain ⟨rfl, rfl, _⟩ := h
        obtain ⟨pre, post, e1, e2, _⟩ := add_connection_link_inorder _ _ linked hl
        refine ⟨rfl, rfl, ?_, by simp⟩
        unfold rb_size
        simp only [rb_inorder_insert_color, e2, e1, List.length_append, List.length_cons,
          Option.isSome_some, if_true]
        omega

/-- C9 as stated fails: `mk_sched_add_connection` on a freshly registered
worker returns a record and links it into the index without touching the
counters, so afterwards `accepted - closed` is 0 while the index holds one
record. -/
theorem add_connection_breaks_live_count :
    ∃ conn s1 steps,
      mk_sched_add_connection mk_plugin_ret.MK_PLUGIN_RET_CONTINUE true 0 5 (fresh_worker 0)
        = add_outcome.returned (some conn) s1 steps ∧
      live_count_invariant (fresh_worker 0) ∧ ¬ live_count_invariant s1 := by
  refine ⟨pending_conn 5 0,
    { fresh_worker 0 with rb_queue := node RB_BLACK nil (pending_conn 5 0) nil },
    [sched_step.mk_plugin_stage_run_10 5, sched_step.mk_mem_malloc 5,
     sched_step.rb_link_node 5, sched_step.rb_insert_color 5], ?_, ?_, ?_⟩
  · rfl
  · decide
  · decide

/-- C9, amended. The live-count predicate holds in the freshly registered
worker state and is preserved by `mk_sched_remove_client`,
`mk_sched_drop_connection` and `mk_sched_check_timeouts`.
`mk_sched_add_connection` never writes a counter: when it returns `NULL` the
worker entry is unchanged, and when it returns a record the index has grown by
exactly that record, so that the predicate holds again once
`accepted_connections` has been incremented. -/
theorem live_count_invariant_preserved (s : sched_list_node)
    (hr : s.accepted_connections < 2 ^ 64) (hinv : live_count_invariant s) :
    (∀ wid, live_count_invariant (fresh_worker wid)) ∧
    (∀ f, live_count_invariant (mk_sched_remove_client s f).2.1) ∧
    (∀ f th, th.worker_sched_node = some s →
      ∃ s1, (mk_sched_drop_connection f th).2.worker_sched_node = some s1 ∧
        live_count_invariant s1) ∧
    (∀ cfg now th, th.worker_sched_node = some s →
      ∃ s1, (mk_sched_check_timeouts cfg now s th).2.worker_sched_node = some s1 ∧
        live_count_invariant s1) ∧
    (∀ ret malloc_ok now f r s1 steps,
      mk_sched_add_connection ret malloc_ok now f s = add_outcome.returned r s1 steps →
        s1.accepted_connections = s.accepted_connections ∧
        s1.closed_connections = s.closed_connections ∧
        rb_size s1.rb_queue = rb_size s.rb_queue + (if r.isSome then 1 else 0) ∧
        (r = none → live_count_invariant s1) ∧
        (r ≠ none → s.accepted_connections + 1 < 2 ^ 64 →
          live_count_invariant
            { s1 with accepted_connections := ull_incr s1.accepted_connections })) := by
  refine ⟨fun wid => ⟨le_refl _, rfl⟩, fun f => (mk_sched_remove_client_invariant s f hr hinv).1,
    ?_, ?_, ?_⟩
  · intro f th hw
    obtain ⟨s1, hw1, _, h1⟩ := mk_sched_drop_connection_invariant f th s hw hr hinv
    exact ⟨s1, hw1, h1⟩
  · intro cfg now th hw
    obtain ⟨s1, hw1, ha1, h1⟩ :=
      check_timeouts_incoming_invariant cfg now s.incoming_queue th s hw hr hinv
    obtain ⟨s2, hw2, _, h2⟩ :=
      check_timeouts_sessions_invariant cfg now
        (check_timeouts_incoming cfg now s.incoming_queue th).cs_incomplete _ s1 hw1
        (by rw [ha1]; exact hr) h1
    exact ⟨s2, hw2, h2⟩
  · intro ret malloc_ok now f r s1 steps h
    obtain ⟨ha, hc, hs, hn⟩ := mk_sched_add_connection_frame ret malloc_ok now f s r s1 steps h
    refine ⟨ha, hc, hs, ?_, ?_⟩
    · intro hr0
      rw [hn hr0]; exact hinv
    · intro hr1 hlt
      have hsome : r.isSome = true := by
        cases r with
        | none => exact absurd rfl hr1
        | some _ => rfl
      rw [hsome] at hs
      obtain ⟨hle, hsize⟩ := hinv
      unfold live_count_invariant
      simp only [hs, ha, hc, if_true]
      unfold ull_incr ULLONG_MODULUS
      omega

/-- C9, amended, on a worker that indexes descriptors 3 and 7 (accepted 2,
closed 0): the predicate holds before and after removing descriptor 3. -/
theorem live_count_invariant_preserved_witness :
    live_count_invariant two_conn_worker ∧
    live_count_invariant (mk_sched_remove_client two_conn_worker 3).2.1 :=
  ⟨by decide,
   (live_count_invariant_preserved two_conn_worker (by decide) (by decide)).2.1 3⟩

/-! ## The index stays a search tree -/

/-- A returning `mk_sched_add_connection` keeps the index ordered. -/
theorem mk_sched_add_connection_ordered (ret : mk_plugin_ret) (malloc_ok : Bool) (now f : Int)
    (s : sched_list_node) (r : Option mk_sched_conn) (s1 : sched_list_node)
    (steps : List sched_step) (hord : rb_ordered s.rb_queue)
    (h : mk_sched_add_connection ret malloc_ok now f s = add_outcome.returned r s1 steps) :
    rb_ordered s1.rb_queue := by
  unfold mk_sched_add_connection at h
  split at h
  · simp only [add_outcome.returned.injEq] at h
    obtain ⟨_, rfl, _⟩ := h
    exact hord
  · split at h
    · simp only [add_outcome.returned.injEq] at h
      obtain ⟨_, rfl, _⟩ := h
      exact hord
    · simp only [] at h
      split at h
      · simp at h
      · rename_i linked hl
        simp only [add_outcome.returned.injEq] at h
        obtain ⟨_, rfl, _⟩ := h
        exact (add_connection_link_ordered _ linked _ f hord hl).1

/-- The function `mk_sched_remove_client` keeps the index ordered. -/
theorem mk_sched_remove_client_ordered (s : sched_list_node) (f : Int)
    (hord : rb_ordered s.rb_queue) : rb_ordered (mk_sched_remove_client s f).2.1.rb_queue := by
  cases h : get_connection_loop s.rb_queue f with
  | none =>
    rw [mk_sched_remove_client_absent s f h]
    exact hord
  | some sc =>
    rw [mk_sched_remove_client_found s f sc h]
    exact (rb_erase_lookup s.rb_queue f sc hord h).1

theorem worker_reachable_ordered (s : sched_list_node) (h : worker_reachable s) :
    rb_ordered s.rb_queue := by
  induction h with
  | register wid => exact List.Pairwise.nil
  | add_connection ret malloc_ok now fd s s1 r steps _ hadd ih =>
    exact mk_sched_add_connection_ordered ret malloc_ok now fd s r s1 steps ih hadd
  | remove_client fd s _ ih => exact mk_sched_remove_client_ordered s fd ih
  | other_fields s s1 _ he ih => rw [he]; exact ih

/-- C10. In every reachable worker state the connection index is strictly
ordered by `event.fd` (a search tree), so it holds at most one record per
descriptor and `mk_sched_get_connection` returns a record exactly when it is the
record indexed under that descriptor; every returning `mk_sched_add_connection`
and every `mk_sched_remove_client` keeps the index ordered. -/
theorem index_one_record_per_fd (s : sched_list_node) (h : worker_reachable s) :
    rb_ordered s.rb_queue ∧
    (∀ c1 ∈ rb_inorder s.rb_queue, ∀ c2 ∈ rb_inorder s.rb_queue,
      c1.event.fd = c2.event.fd → c1 = c2) ∧
    (∀ f sc, (mk_sched_get_connection (some s) f).1 = some sc ↔
      sc ∈ rb_inorder s.rb_queue ∧ sc.event.fd = f) ∧
    (∀ ret malloc_ok now f r s1 steps,
      mk_sched_add_connection ret malloc_ok now f s = add_outcome.returned r s1 steps →
        rb_ordered s1.rb_queue) ∧
    (∀ f, rb_ordered (mk_sched_remove_client s f).2.1.rb_queue) := by
  have hord := worker_reachable_ordered s h
  refine ⟨hord, ?_, ?_, ?_, ?_⟩
  · intro c1 h1 c2 h2 hfd
    have e1 := get_connection_loop_complete _ hord c1 h1
    have e2 := get_connection_loop_complete _ hord c2 h2
    rw [hfd, e2] at e1
    exact (Option.some.inj e1).symm
  · intro f sc
    exact get_connection_loop_iff _ hord f sc
  · intro ret malloc_ok now f r s1 steps hadd
    exact mk_sched_add_connection_ordered ret malloc_ok now f s r s1 steps hord hadd
  · intro f
    exact mk_sched_remove_client_ordered s f hord

/-- C10 on the worker reached from a fresh one by adding descriptor 7 and then
descriptor 3: its index is a search tree and looking up 3 returns the record of
3. -/
theorem index_one_record_per_fd_witness :
    rb_ordered two_conn_worker.rb_queue ∧
    (mk_sched_get_connection (some two_conn_worker) 3).1 = some (pending_conn 3 0) :=
  have hreach : worker_reachable two_conn_worker :=
    worker_reachable.other_fields
      { fresh_worker 0 with
        rb_queue := node RB_BLACK (node RB_RED nil (pending_conn 3 0) nil) (pending_conn 7 0) nil }
      two_conn_worker
      (worker_reachable.add_connection mk_plugin_ret.MK_PLUGIN_RET_CONTINUE true 0 3
        { fresh_worker 0 with rb_queue := node RB_BLACK nil (pending_conn 7 0) nil } _
        (some (pending_conn 3 0)) _
        (worker_reachable.add_connection mk_plugin_ret.MK_PLUGIN_RET_CONTINUE true 0 7
          (fresh_worker 0) _ (some (pending_conn 7 0)) _ (worker_reachable.register 0) rfl)
        rfl)
      rfl
  ⟨(index_one_record_per_fd two_conn_worker hreach).1,
   ((index_one_record_per_fd two_conn_worker hreach).2.2.1 3 (pending_conn 3 0)).2
     ⟨by decide, by decide⟩⟩

/-! ## Refusal at accept time -/

/-- C14. When the stage-10 hook returns `MK_PLUGIN_RET_CLOSE_CONX`,
`mk_sched_add_connection(f, sched)` runs the hook, closes `f` and returns
`NULL`: no record is created, the worker entry (index, accepted and closed
counters) is left as it was, and no stage-50 hook runs. -/
theorem add_connection_stage10_refusal (malloc_ok : Bool) (now f : Int)
    (sched : sched_list_node) :
    mk_sched_add_connection mk_plugin_ret.MK_PLUGIN_RET_CLOSE_CONX malloc_ok now f sched
      = add_outcome.returned none sched
          [sched_step.mk_plugin_stage_run_10 f, sched_step.mk_socket_close f] ∧
    sched_step.mk_plugin_stage_run_50 f ∉
      [sched_step.mk_plugin_stage_run_10 f, sched_step.mk_socket_close f] := by
  constructor
  · simp [mk_sched_add_connection]
  · simp

/-- C15 as stated fails: a stage-10 refusal on a worker leaves its
`over_capacity` counter where it was instead of incrementing it. -/
theorem refusal_leaves_over_capacity :
    ∃ s1 steps,
      mk_sched_add_connection mk_plugin_ret.MK_PLUGIN_RET_CLOSE_CONX true 0 5 two_conn_worker
        = add_outcome.returned none s1 steps ∧
      ¬ (s1.over_capacity = two_conn_worker.over_capacity + 1) := by
  refine ⟨two_conn_worker,
    [sched_step.mk_plugin_stage_run_10 5, sched_step.mk_socket_close 5], ?_, ?_⟩
  · decide
  · decide

/-- C15, amended. A refusal writes no `over_capacity` counter: on a stage-10
refusal `mk_sched_add_connection` returns `NULL` and leaves the worker entry,
`over_capacity` included, as it was, and on a balancer refusal
(`_next_target` = -1) `mk_sched_next_target`, which only reads the table,
returns `NULL` and so names no worker. -/
theorem refusal_writes_no_over_capacity :
    (∀ (malloc_ok : Bool) (now f : Int) (sched : sched_list_node),
      ∃ steps,
        mk_sched_add_connection mk_plugin_ret.MK_PLUGIN_RET_CLOSE_CONX malloc_ok now f sched
          = add_outcome.returned none sched steps) ∧
    (∀ (sched_list : List sched_list_node) (server_capacity : Nat),
      _next_target sched_list server_capacity = -1 →
        mk_sched_next_target sched_list server_capacity = none) := by
  constructor
  · intro malloc_ok now f sched
    exact ⟨[sched_step.mk_plugin_stage_run_10 f, sched_step.mk_socket_close f],
      by simp [mk_sched_add_connection]⟩
  · intro sched_list cap h
    exact (mk_sched_next_target_eq_none sched_list cap).2 h

/-- C15, amended, on a full table (two workers, 4 live connections each,
`server_capacity` 4): the balancer refuses and returns `NULL`. -/
theorem refusal_writes_no_over_capacity_witness :
    mk_sched_next_target [worker_with 4 0, worker_with 5 1] 4 = none :=
  refusal_writes_no_over_capacity.2 [worker_with 4 0, worker_with 5 1] 4 (by decide)

/-! ## `mk_sched_remove_client`, case by case -/

theorem mem_rb_fds_iff (t : rb_node) (hord : rb_ordered t) (f : Int) :
    f ∈ rb_fds t ↔ get_connection_loop t f ≠ none := by
  rw [Ne, get_connection_loop_eq_none t hord]
  unfold rb_fds
  simp only [List.mem_map]
  constructor
  · rintro ⟨sc, hsc, hfd⟩ h
    exact h sc hsc hfd
  · intro h
    by_contra hn
    exact h (fun sc hsc hfd => hn ⟨sc, hsc, hfd⟩)

/-- C20. On a worker whose index is ordered as a search tree,
`mk_sched_remove_client(sched, f)` returns 0 exactly when `f` is in the index.
In that case `closed_connections` is incremented once (by one, unless the
counter wraps), exactly the record of `f` leaves the index, and the stage-50
hook and the socket close run once each; otherwise it returns -1, the steps are
the deregistration and the lookup only, and index and counters are unchanged.
In both cases the event loop loses the registration of `f`, and
`accepted_connections` and `over_capacity` are not written. -/
theorem remove_client_result (sched : sched_list_node) (f : Int)
    (hord : rb_ordered sched.rb_queue) :
    ((mk_sched_remove_client sched f).1 = 0 ↔ f ∈ rb_fds sched.rb_queue) ∧
    (f ∈ rb_fds sched.rb_queue →
      (∃ sc pre post, sc.event.fd = f ∧
        rb_inorder sched.rb_queue = pre ++ sc :: post ∧
        rb_inorder (mk_sched_remove_client sched f).2.1.rb_queue = pre ++ post) ∧
      (mk_sched_remove_client sched f).2.1.closed_connections
        = ull_incr sched.closed_connections ∧
      (sched.closed_connections + 1 < 2 ^ 64 →
        (mk_sched_remove_client sched f).2.1.closed_connections
          = sched.closed_connections + 1) ∧
      (mk_sched_remove_client sched f).2.2.count (sched_step.mk_plugin_stage_run_50 f) = 1 ∧
      (mk_sched_remove_client sched f).2.2.count (sched_step.mk_socket_close f) = 1) ∧
    (f ∉ rb_fds sched.rb_queue →
      (mk_sched_remove_client sched f).1 = -1 ∧
      (mk_sched_remove_client sched f).2.2
        = [sched_step.mk_event_del f, sched_step.mk_sched_get_connection f] ∧
      (mk_sched_remove_client sched f).2.1.rb_queue = sched.rb_queue ∧
      (mk_sched_remove_client sched f).2.1.closed_connections = sched.closed_connections) ∧
    (mk_sched_remove_client sched f).2.1.loop = mk_event_del sched.loop f ∧
    (mk_sched_remove_client sched f).2.1.accepted_connections = sched.accepted_connections ∧
    (mk_sched_remove_client sched f).2.1.over_capacity = sched.over_capacity := by
  cases h : get_connection_loop sched.rb_queue f with
  | none =>
    have hnot : f ∉ rb_fds sched.rb_queue := by
      rw [mem_rb_fds_iff _ hord, h]; simp
    rw [mk_sched_remove_client_absent sched f h]
    refine ⟨?_, fun hin => absurd hin hnot, fun _ => ⟨rfl, rfl, rfl, rfl⟩, rfl, rfl, rfl⟩
    constructor
    · intro h0; simp at h0
    · intro hin; exact absurd hin hnot
  | some sc =>
    have hin : f ∈ rb_fds sched.rb_queue := by
      rw [mem_rb_fds_iff _ hord, h]; simp
    have hfd := (get_connection_loop_sound _ f sc h).2
    obtain ⟨pre, post, e1, e2⟩ := rb_inorder_erase_found f sched.rb_queue sc h
    rw [mk_sched_remove_client_found sched f sc h]
    refine ⟨⟨fun _ => hin, fun _ => rfl⟩, fun _ => ⟨⟨sc, pre, post, hfd, e1, e2⟩, rfl, ?_, ?_, ?_⟩,
      fun hn => absurd hin hn, rfl, rfl, rfl⟩
    · intro hlt
      show ull_incr sched.closed_connections = sched.closed_connections + 1
      unfold ull_incr ULLONG_MODULUS
      omega
    · simp [List.count_cons]
    · simp [List.count_cons]

/-- C20 on a worker that indexes descriptors 3 and 7: removing 7 returns 0. -/
theorem remove_client_result_witness :
    (mk_sched_remove_client two_conn_worker 7).1 = 0 ∧
    (mk_sched_remove_client two_conn_worker 7).2.1.closed_connections = 1 ∧
    (mk_sched_remove_client two_conn_worker 7).2.1.accepted_connections = 2 :=
  ⟨(remove_client_result two_conn_worker 7 (by decide)).1.2 (by decide), by decide,
   (remove_client_result two_conn_worker 7 (by decide)).2.2.2.2.1⟩

/-! ## `mk_sched_event_close` -/

/-- C13. For a descriptor `f` that the worker's index holds and each of the
three terminal reasons, `mk_sched_event_close(f, event)` returns 0 and takes
the steps of the drop, among them the stage-50 hook exactly once, followed by
exactly one hook: event-close for `MK_EP_SOCKET_CLOSED`, event-error for
`MK_EP_SOCKET_ERROR`, event-timeout for `MK_EP_SOCKET_TIMEOUT`. -/
theorem event_close_hooks (f : Int) (event : mk_ep_socket_event) (th : sched_thread)
    (s : sched_list_node) (sc : mk_sched_conn) (hw : th.worker_sched_node = some s)
    (hidx : (mk_sched_get_connection (some s) f).1 = some sc)
    (hterm : ∀ code, event ≠ mk_ep_socket_event.other code) :
    (mk_sched_event_close f event th).1 = 0 ∧
    ∃ hook,
      (mk_sched_event_close f event th).2.trace = th.trace ++
        [sched_step.mk_http_session_remove f, sched_step.mk_sched_get_connection f,
         sched_step.mk_event_del f, sched_step.mk_sched_get_connection f,
         sched_step.mk_plugin_stage_run_50 f, sched_step.closed_connections_incr,
         sched_step.rb_erase f, sched_step.mk_mem_free f, sched_step.mk_socket_close f,
         hook] ∧
      ((event = mk_ep_socket_event.MK_EP_SOCKET_CLOSED ∧
          hook = sched_step.mk_plugin_event_close f) ∨
       (event = mk_ep_socket_event.MK_EP_SOCKET_ERROR ∧
          hook = sched_step.mk_plugin_event_error f) ∨
       (event = mk_ep_socket_event.MK_EP_SOCKET_TIMEOUT ∧
          hook = sched_step.mk_plugin_event_timeout f)) := by
  have h : get_connection_loop s.rb_queue f = some sc := hidx
  refine ⟨rfl, ?_⟩
  unfold mk_sched_event_close
  rw [mk_sched_drop_connection_found f th s sc hw h]
  cases event with
  | MK_EP_SOCKET_CLOSED =>
    exact ⟨_, by simp [event_close_hook], Or.inl ⟨rfl, rfl⟩⟩
  | MK_EP_SOCKET_ERROR =>
    exact ⟨_, by simp [event_close_hook], Or.inr (Or.inl ⟨rfl, rfl⟩)⟩
  | MK_EP_SOCKET_TIMEOUT =>
    exact ⟨_, by simp [event_close_hook], Or.inr (Or.inr ⟨rfl, rfl⟩)⟩
  | other code => exact absurd rfl (hterm code)

/-- C13 on a worker that indexes descriptors 3 and 7: descriptor 3 times out. -/
theorem event_close_hooks_witness :
    (mk_sched_event_close 3 mk_ep_socket_event.MK_EP_SOCKET_TIMEOUT
        (thread_of two_conn_worker)).1 = 0 ∧
    ∃ hook,
      (mk_sched_event_close 3 mk_ep_socket_event.MK_EP_SOCKET_TIMEOUT
          (thread_of two_conn_worker)).2.trace = (thread_of two_conn_worker).trace ++
        [sched_step.mk_http_session_remove 3, sched_step.mk_sched_get_connection 3,
         sched_step.mk_event_del 3, sched_step.mk_sched_get_connection 3,
         sched_step.mk_plugin_stage_run_50 3, sched_step.closed_connections_incr,
         sched_step.rb_erase 3, sched_step.mk_mem_free 3, sched_step.mk_socket_close 3,
         hook] ∧
      ((mk_ep_socket_event.MK_EP_SOCKET_TIMEOUT = mk_ep_socket_event.MK_EP_SOCKET_CLOSED ∧
          hook = sched_step.mk_plugin_event_close 3) ∨
       (mk_ep_socket_event.MK_EP_SOCKET_TIMEOUT = mk_ep_socket_event.MK_EP_SOCKET_ERROR ∧
          hook = sched_step.mk_plugin_event_error 3) ∨
       (mk_ep_socket_event.MK_EP_SOCKET_TIMEOUT = mk_ep_socket_event.MK_EP_SOCKET_TIMEOUT ∧
          hook = sched_step.mk_plugin_event_timeout 3)) :=
  event_close_hooks 3 mk_ep_socket_event.MK_EP_SOCKET_TIMEOUT (thread_of two_conn_worker)
    two_conn_worker (pending_conn 3 0) rfl (by decide) (by intro code; simp)

/-! ## The timeout sweep as a sequence of drops -/

theorem to_int_eq (x : Int) (h : in_int_range x) : to_int x = x := by
  unfold in_int_range at h
  unfold to_int
  omega

/-- The first pass drops, in queue order, the descriptors of the records whose
`int` deadline is not after the clock. -/
theorem check_timeouts_incoming_eq (cfg : mk_server_config) (now : Int)
    (queue : List mk_sched_conn) :
    ∀ th, check_timeouts_incoming cfg now queue th =
      drop_connections
        ((queue.filter (fun c => decide (to_int (c.arrive_time + cfg.timeout) ≤ now))).map
          (fun c => c.event.fd)) th := by
  induction queue with
  | nil => intro th; rfl
  | cons c rest ih =>
    intro th
    unfold check_timeouts_incoming
    by_cases h : to_int (c.arrive_time + cfg.timeout) ≤ now
    · simp only [h, if_true, List.filter_cons, decide_True, List.map_cons, drop_connections]
      exact ih _
    · simp only [h, if_false, List.filter_cons, decide_False]
      exact ih _

/-- The second pass drops, in list order, the sockets of the sessions whose
`int` deadline is not after the clock. -/
theorem check_timeouts_sessions_eq (cfg : mk_server_config) (now : Int)
    (sessions : List mk_http_session) :
    ∀ th, check_timeouts_sessions cfg now sessions th =
      drop_connections
        ((sessions.filter (fun cs =>
            decide ((if cs.counter_connections = 0 then to_int (cs.init_time + cfg.timeout)
              else to_int (cs.init_time + cfg.keep_alive_timeout)) ≤ now))).map
          (fun cs => cs.socket)) th := by
  induction sessions with
  | nil => intro th; rfl
  | cons c rest ih =>
    intro th
    unfold check_timeouts_sessions
    by_cases h : (if c.counter_connections = 0 then to_int (c.init_time + cfg.timeout)
        else to_int (c.init_time + cfg.keep_alive_timeout)) ≤ now
    · simp only [h, if_true, List.filter_cons, decide_True, List.map_cons, drop_connections]
      exact ih _
    · simp only [h, if_false, List.filter_cons, decide_False]
      exact ih _

/-- The filter of a list only depends on the predicate on the members. -/
theorem filter_congr_mem {α : Type} (l : List α) (p q : α → Bool)
    (h : ∀ a ∈ l, p a = q a) : l.filter p = l.filter q := by
  induction l with
  | nil => rfl
  | cons a l ih =>
    have ha := h a (by simp)
    have hl := ih (fun b hb => h b (by simp [hb]))
    simp [List.filter_cons, ha, hl]

/-- After dropping a list of descriptors from a worker with an ordered index,
the index is still ordered, the dropped descriptors are not found, and every
other descriptor is found as before. -/
theorem drop_connections_lookup (fds : List Int) :
    ∀ (th : sched_thread) (s : sched_list_node), th.worker_sched_node = some s →
      rb_ordered s.rb_queue →
      ∃ s1, (drop_connections fds th).worker_sched_node = some s1 ∧
        rb_ordered s1.rb_queue ∧
        (∀ g, g ∈ fds → get_connection_loop s1.rb_queue g = none) ∧
        (∀ g, g ∉ fds → get_connection_loop s1.rb_queue g = get_connection_loop s.rb_queue g) := by
  induction fds with
  | nil =>
    intro th s hw hord
    exact ⟨s, hw, hord, by simp, fun _ _ => rfl⟩
  | cons f rest ih =>
    intro th s hw hord
    obtain ⟨s1, _, hw1, habs, hframe, _, _⟩ := mk_sched_drop_connection_spec f th s hw hord
    have hord1 : rb_ordered s1.rb_queue := by
      cases h : get_connection_loop s.rb_queue f with
      | none =>
        rw [mk_sched_drop_connection_absent f th s hw h] at hw1
        simp only [Option.some.injEq] at hw1
        rw [← hw1]; exact hord
      | some sc =>
        rw [mk_sched_drop_connection_found f th s sc hw h] at hw1
        simp only [Option.some.injEq] at hw1
        rw [← hw1]
        exact (rb_erase_lookup s.rb_queue f sc hord h).1
    obtain ⟨s2, hw2, hord2, h2a, h2b⟩ := ih _ s1 hw1 hord1
    refine ⟨s2, hw2, hord2, ?_, ?_⟩
    · intro g hg
      by_cases hgr : g ∈ rest
      · exact h2a g hgr
      · have hgf : g = f := by
          rcases List.mem_cons.1 hg with h | h
          · exact h
          · exact absurd h hgr
        subst hgf
        rw [h2b g hgr]
        exact habs
    · intro g hg
      have hgf : g ≠ f := fun h => hg (by simp [h])
      have hgr : g ∉ rest := fun h => hg (by simp [h])
      rw [h2b g hgr]
      exact hframe g hgf

/-- C11. On a worker whose index is ordered as a search tree and whose incoming
queue links records of that index, with every `arrive_time + timeout` in the
range of `int`: the first pass of `mk_sched_check_timeouts` drops, in queue
order, exactly the records with `arrive_time + timeout <= now`; after it every
such record is absent from the index and every queued record with
`arrive_time + timeout > now` is still the indexed record of its descriptor;
and `mk_sched_check_timeouts` returns 0. -/
theorem check_timeouts_incoming_pass (cfg : mk_server_config) (now : Int)
    (sched : sched_list_node) (th : sched_thread)
    (hw : th.worker_sched_node = some sched) (hord : rb_ordered sched.rb_queue)
    (hq : ∀ c ∈ sched.incoming_queue, get_connection_loop sched.rb_queue c.event.fd = some c)
    (hrange : ∀ c ∈ sched.incoming_queue, in_int_range (c.arrive_time + cfg.timeout)) :
    check_timeouts_incoming cfg now sched.incoming_queue th =
      drop_connections
        ((sched.incoming_queue.filter
            (fun c => decide (c.arrive_time + cfg.timeout ≤ now))).map (fun c => c.event.fd))
        th ∧
    (∃ s1,
      (check_timeouts_incoming cfg now sched.incoming_queue th).worker_sched_node = some s1 ∧
      (∀ c ∈ sched.incoming_queue, c.arrive_time + cfg.timeout ≤ now →
        (mk_sched_get_connection (some s1) c.event.fd).1 = none) ∧
      (∀ c ∈ sched.incoming_queue, now < c.arrive_time + cfg.timeout →
        (mk_sched_get_connection (some s1) c.event.fd).1 = some c)) ∧
    (mk_sched_check_timeouts cfg now sched th).1 = 0 := by
  have heq : check_timeouts_incoming cfg now sched.incoming_queue th =
      drop_connections
        ((sched.incoming_queue.filter
            (fun c => decide (c.arrive_time + cfg.timeout ≤ now))).map (fun c => c.event.fd))
        th := by
    rw [check_timeouts_incoming_eq]
    congr 2
    apply filter_congr_mem
    intro c hc
    rw [to_int_eq _ (hrange c hc)]
  refine ⟨heq, ?_, rfl⟩
  rw [heq]
  obtain ⟨s1, hw1, _, ha, hb⟩ := drop_connections_lookup
    ((sched.incoming_queue.filter
      (fun c => decide (c.arrive_time + cfg.timeout ≤ now))).map (fun c => c.event.fd))
    th sched hw hord
  refine ⟨s1, hw1, ?_, ?_⟩
  · intro c hc hle
    apply ha
    exact List.mem_map.2 ⟨c, List.mem_filter.2 ⟨hc, by simpa using hle⟩, rfl⟩
  · intro c hc hlt
    show get_connection_loop s1.rb_queue c.event.fd = some c
    rw [hb, hq c hc]
    intro hmem
    obtain ⟨c1, hc1, hfd⟩ := List.mem_map.1 hmem
    obtain ⟨hc1q, hle⟩ := List.mem_filter.1 hc1
    have e1 := hq c1 hc1q
    rw [hfd, hq c hc] at e1
    have : c = c1 := Option.some.inj e1
    subst this
    have hle1 : c.arrive_time + cfg.timeout ≤ now := by simpa using hle
    omega

/-- C11 on the spec's scenario 4 (request timeout 5): at clock value 5 the
record that arrived at time 0 is dropped, boundary included, and the record
that arrived at time 3 is kept. -/
theorem check_timeouts_incoming_pass_witness :
    check_timeouts_incoming scenario_config 5 sweep_worker.incoming_queue
        (thread_of sweep_worker)
      = drop_connections [3] (thread_of sweep_worker) ∧
    (∃ s1,
      (check_timeouts_incoming scenario_config 5 sweep_worker.incoming_queue
        (thread_of sweep_worker)).worker_sched_node = some s1 ∧
      (∀ c ∈ sweep_worker.incoming_queue, c.arrive_time + scenario_config.timeout ≤ 5 →
        (mk_sched_get_connection (some s1) c.event.fd).1 = none) ∧
      (∀ c ∈ sweep_worker.incoming_queue, 5 < c.arrive_time + scenario_config.timeout →
        (mk_sched_get_connection (some s1) c.event.fd).1 = some c)) ∧
    (mk_sched_check_timeouts scenario_config 5 sweep_worker (thread_of sweep_worker)).1 = 0 :=
  check_timeouts_incoming_pass scenario_config 5 sweep_worker (thread_of sweep_worker) rfl
    (by decide) (by decide) (by decide)

/-- C12 as stated fails for times beyond the range of `int`: the session
`late_session` has the deadline 2147483637 + 15 = 2147483652, which is after
the clock value 2147483640, and still the second pass drops its socket, because
the deadline is stored in the `int` variable `client_timeout` and wraps to a
negative value. -/
theorem check_timeouts_sessions_int_wrap :
    ¬ (session_deadline scenario_config late_session ≤ 2147483640) ∧
    check_timeouts_sessions scenario_config 2147483640 [late_session] late_thread
      = (mk_sched_drop_connection late_session.socket late_thread).2 ∧
    sched_step.mk_socket_close late_session.socket ∈
      (check_timeouts_sessions scenario_config 2147483640 [late_session] late_thread).trace := by
  decide

/-- C12, amended. For sessions whose deadline `init_time + T` is in the range
of `int`, where `T` is the request timeout when `counter_connections == 0` and
the keep-alive timeout otherwise, the second pass of `mk_sched_check_timeouts`
drops, in list order, the sockets of exactly the sessions with
`init_time + T <= now`; when run by `mk_sched_check_timeouts` it goes over the
incomplete list that the first pass leaves. -/
theorem check_timeouts_sessions_pass (cfg : mk_server_config) (now : Int)
    (sessions : List mk_http_session) (th : sched_thread)
    (hrange : ∀ cs ∈ sessions, in_int_range (session_deadline cfg cs)) :
    check_timeouts_sessions cfg now sessions th =
      drop_connections
        ((sessions.filter (fun cs => decide (session_deadline cfg cs ≤ now))).map
          (fun cs => cs.socket)) th ∧
    ∀ sched, (mk_sched_check_timeouts cfg now sched th).2 =
      check_timeouts_sessions cfg now
        (check_timeouts_incoming cfg now sched.incoming_queue th).cs_incomplete
        (check_timeouts_incoming cfg now sched.incoming_queue th) := by
  refine ⟨?_, fun _ => rfl⟩
  rw [check_timeouts_sessions_eq]
  congr 2
  apply filter_congr_mem
  intro cs hcs
  have hr := hrange cs hcs
  unfold session_deadline at hr ⊢
  by_cases h0 : cs.counter_connections = 0
  · simp only [h0, if_true] at hr ⊢
    rw [to_int_eq _ hr]
  · simp only [h0, if_false] at hr ⊢
    rw [to_int_eq _ hr]

/-- C12, amended, on the spec's scenario 3 (keep-alive timeout 15): a session
that has served a request and was re-armed at time 2 is kept at clock value 16
and dropped at clock value 17. -/
theorem check_timeouts_sessions_pass_witness :
    check_timeouts_sessions scenario_config 16 [keepalive_session] keepalive_thread
      = keepalive_thread ∧
    check_timeouts_sessions scenario_config 17 [keepalive_session] keepalive_thread
      = (mk_sched_drop_connection 7 keepalive_thread).2 :=
  ⟨(check_timeouts_sessions_pass scenario_config 16 [keepalive_session] keepalive_thread
      (by decide)).1,
   (check_timeouts_sessions_pass scenario_config 17 [keepalive_session] keepalive_thread
      (by decide)).1⟩

/-! ## `mk_sched_event_read` -/

theorem event_read_return_pos (ret : Int) (h : 0 < ret) : event_read_return ret = ret := by
  unfold event_read_return EAGAIN
  rw [if_neg (by omega)]

theorem mk_http_session_get_remove (socket : Int) (th : sched_thread) :
    mk_http_session_get socket (mk_http_session_remove socket th) = none := by
  unfold mk_http_session_get mk_http_session_remove
  simp only [List.find?_eq_none, List.mem_filter]
  intro cs hcs
  simpa using hcs.2

/-- The trace of `mk_sched_event_read` grows by `event_read_steps`. -/
theorem mk_sched_event_read_trace (env : read_event_env) (conn : mk_sched_conn)
    (th : sched_thread) :
    (mk_sched_event_read env conn th).2.trace = th.trace ++
      event_read_steps env conn.event.fd (mk_http_session_get conn.event.fd th).isSome := by
  cases hg : mk_http_session_get conn.event.fd th <;>
    cases hc : env.session_create_ok <;>
    by_cases hret : 0 < env.handler_read_ret <;>
    cases hst : env.parser_status <;>
    cases hre : env.request_list_empty <;>
    by_cases hs : env.channel_streams = 0 <;>
    simp [mk_sched_event_read, event_read_steps, hg, hc, hret, hst, hre, hs,
      mk_http_session_create, mk_http_status_completed, mk_http_session_remove,
      mk_channel_is_empty]

/-- The worker entry after `mk_sched_event_read`: it gains the WRITE
registration when a complete request was parsed and is unchanged otherwise. -/
theorem mk_sched_event_read_worker (env : read_event_env) (conn : mk_sched_conn)
    (th : sched_thread) :
    (mk_sched_event_read env conn th).2.worker_sched_node =
      if (mk_http_session_get conn.event.fd th ≠ none ∨ env.session_create_ok = true) ∧
          0 < env.handler_read_ret ∧
          env.parser_status = mk_http_parser_status.MK_HTTP_PARSER_OK then
        th.worker_sched_node.map (fun s =>
          { s with
            loop := mk_event_add s.loop conn.event.fd mk_event_type.MK_EVENT_CONNECTION
              mk_event_mask.MK_EVENT_WRITE (some conn) })
      else th.worker_sched_node := by
  cases hg : mk_http_session_get conn.event.fd th <;>
    cases hc : env.session_create_ok <;>
    by_cases hret : 0 < env.handler_read_ret <;>
    cases hst : env.parser_status <;>
    cases hre : env.request_list_empty <;>
    by_cases hs : env.channel_streams = 0 <;>
    simp [mk_sched_event_read, hg, hc, hret, hst, hre, hs,
      mk_http_session_create, mk_http_status_completed, mk_http_session_remove,
      mk_channel_is_empty]

/-- The value `mk_sched_event_read` returns. -/
theorem mk_sched_event_read_ret (env : read_event_env) (conn : mk_sched_conn)
    (th : sched_thread) :
    (mk_sched_event_read env conn th).1 =
      if mk_http_session_get conn.event.fd th = none ∧ env.session_create_ok = false then -1
      else if 0 < env.handler_read_ret ∧
          env.parser_status = mk_http_parser_status.MK_HTTP_PARSER_ERROR then -1
      else event_read_return env.handler_read_ret := by
  cases hg : mk_http_session_get conn.event.fd th <;>
    cases hc : env.session_create_ok <;>
    by_cases hret : 0 < env.handler_read_ret <;>
    cases hst : env.parser_status <;>
    cases hre : env.request_list_empty <;>
    by_cases hs : env.channel_streams = 0 <;>
    simp [mk_sched_event_read, hg, hc, hret, hst, hre, hs,
      mk_http_session_create, mk_http_status_completed, mk_http_session_remove,
      mk_channel_is_empty]

/-- The session table after `mk_sched_event_read` ran into a parser error
holds no session for the socket. -/
theorem mk_sched_event_read_error_session (env : read_event_env) (conn : mk_sched_conn)
    (th : sched_thread)
    (hsess : mk_http_session_get conn.event.fd th ≠ none ∨ env.session_create_ok = true)
    (hret : 0 < env.handler_read_ret)
    (hst : env.parser_status = mk_http_parser_status.MK_HTTP_PARSER_ERROR) :
    mk_http_session_get conn.event.fd (mk_sched_event_read env conn th).2 = none := by
  cases hg : mk_http_session_get conn.event.fd th <;>
    cases hc : env.session_create_ok <;>
    by_cases hs : env.channel_streams = 0 <;>
    simp [hg, hc] at hsess <;>
    simp only [mk_sched_event_read, hg, hc, hret, hst, hs, if_true, mk_channel_is_empty] <;>
    exact mk_http_session_get_remove _ _

/-- C16. When the socket has a session (or one can be created) and the read
handler returns a positive count, `mk_sched_event_read` registers the
descriptor for WRITE, with the connection record as payload, exactly when the
parser answers `MK_HTTP_PARSER_OK`; on any other answer, pending included, the
worker entry and so every event registration is unchanged; on OK and on
pending the positive count is returned. -/
theorem event_read_registers_write (env : read_event_env) (conn : mk_sched_conn)
    (th : sched_thread) (s : sched_list_node) (hw : th.worker_sched_node = some s)
    (hsess : mk_http_session_get conn.event.fd th ≠ none ∨ env.session_create_ok = true)
    (hret : 0 < env.handler_read_ret) :
    (∃ steps, (mk_sched_event_read env conn th).2.trace = th.trace ++ steps ∧
      (sched_step.mk_event_add conn.event.fd mk_event_mask.MK_EVENT_WRITE ∈ steps ↔
        env.parser_status = mk_http_parser_status.MK_HTTP_PARSER_OK)) ∧
    (env.parser_status = mk_http_parser_status.MK_HTTP_PARSER_OK →
      (mk_sched_event_read env conn th).1 = env.handler_read_ret ∧
      (mk_sched_event_read env conn th).2.worker_sched_node = some
        { s with
          loop := mk_event_add s.loop conn.event.fd mk_event_type.MK_EVENT_CONNECTION
            mk_event_mask.MK_EVENT_WRITE (some conn) } ∧
      ({ fd := conn.event.fd, type := mk_event_type.MK_EVENT_CONNECTION,
         mask := mk_event_mask.MK_EVENT_WRITE, data := some conn } : mk_event_reg) ∈
        mk_event_add s.loop conn.event.fd mk_event_type.MK_EVENT_CONNECTION
          mk_event_mask.MK_EVENT_WRITE (some conn)) ∧
    (env.parser_status = mk_http_parser_status.MK_HTTP_PARSER_PENDING →
      (mk_sched_event_read env conn th).1 = env.handler_read_ret ∧
      (mk_sched_event_read env conn th).2.worker_sched_node = some s) ∧
    (env.parser_status ≠ mk_http_parser_status.MK_HTTP_PARSER_OK →
      (mk_sched_event_read env conn th).2.worker_sched_node = some s) := by
  have hr := event_read_return_pos _ hret
  have hnf : ¬ (mk_http_session_get conn.event.fd th = none ∧ env.session_create_ok = false) := by
    rintro ⟨h1, h2⟩
    rcases hsess with h | h
    · exact h h1
    · rw [h2] at h; simp at h
  refine ⟨⟨_, mk_sched_event_read_trace env conn th, ?_⟩, ?_, ?_, ?_⟩
  · cases hg : mk_http_session_get conn.event.fd th <;>
      cases hc : env.session_create_ok <;>
      cases hst : env.parser_status <;>
      cases hre : env.request_list_empty <;>
      by_cases hs : env.channel_streams = 0 <;>
      simp [hg, hc] at hnf <;>
      simp [event_read_steps, hc, hret, hst, hre, hs]
  · intro hst
    refine ⟨?_, ?_, by simp [mk_event_add]⟩
    · rw [mk_sched_event_read_ret, if_neg hnf, if_neg (by simp [hst]), hr]
    · rw [mk_sched_event_read_worker, if_pos ⟨hsess, hret, hst⟩, hw]
      rfl
  · intro hst
    refine ⟨?_, ?_⟩
    · rw [mk_sched_event_read_ret, if_neg hnf, if_neg (by simp [hst]), hr]
    · rw [mk_sched_event_read_worker, if_neg (by simp [hst]), hw]
  · intro hst
    rw [mk_sched_event_read_worker, if_neg (fun h => hst h.2.2), hw]

/-- C16 on a worker that indexes descriptors 3 and 7: a complete request is
read on descriptor 7. -/
theorem event_read_registers_write_witness :
    (mk_sched_event_read (progress_env mk_http_parser_status.MK_HTTP_PARSER_OK 0)
        (pending_conn 7 0) session_thread).1 = 120 ∧
    (mk_sched_event_read (progress_env mk_http_parser_status.MK_HTTP_PARSER_OK 0)
        (pending_conn 7 0) session_thread).2.worker_sched_node = some
      { two_conn_worker with
        loop := mk_event_add two_conn_worker.loop 7 mk_event_type.MK_EVENT_CONNECTION
          mk_event_mask.MK_EVENT_WRITE (some (pending_conn 7 0)) } :=
  ⟨((event_read_registers_write (progress_env mk_http_parser_status.MK_HTTP_PARSER_OK 0)
      (pending_conn 7 0) session_thread two_conn_worker rfl (by decide) (by decide)).2.1
      rfl).1,
   ((event_read_registers_write (progress_env mk_http_parser_status.MK_HTTP_PARSER_OK 0)
      (pending_conn 7 0) session_thread two_conn_worker rfl (by decide) (by decide)).2.1
      rfl).2.1⟩

/-- C17. When the socket has a session (or one is created by this call), the
read handler returns a positive count and the parser answers
`MK_HTTP_PARSER_ERROR`, `mk_sched_event_read` runs `mk_channel_write` exactly
when the channel holds a queued stream, then removes the session of the socket,
so that none is left, registers nothing, leaves the worker entry as it was and
returns -1. -/
theorem event_read_parser_error (env : read_event_env) (conn : mk_sched_conn)
    (th : sched_thread) (s : sched_list_node) (hw : th.worker_sched_node = some s)
    (hsess : mk_http_session_get conn.event.fd th ≠ none ∨ env.session_create_ok = true)
    (hret : 0 < env.handler_read_ret)
    (hst : env.parser_status = mk_http_parser_status.MK_HTTP_PARSER_ERROR) :
    (mk_sched_event_read env conn th).1 = -1 ∧
    mk_http_session_get conn.event.fd (mk_sched_event_read env conn th).2 = none ∧
    (mk_sched_event_read env conn th).2.worker_sched_node = some s ∧
    ∃ steps, (mk_sched_event_read env conn th).2.trace = th.trace ++ steps ∧
      (sched_step.mk_channel_write conn.event.fd ∈ steps ↔ env.channel_streams ≠ 0) ∧
      steps.getLast? = some (sched_step.mk_http_session_remove conn.event.fd) ∧
      (∀ mask, sched_step.mk_event_add conn.event.fd mask ∉ steps) ∧
      (mk_http_session_get conn.event.fd th = none →
        sched_step.mk_http_session_create conn.event.fd ∈ steps) := by
  have hnf : ¬ (mk_http_session_get conn.event.fd th = none ∧ env.session_create_ok = false) := by
    rintro ⟨h1, h2⟩
    rcases hsess with h | h
    · exact h h1
    · rw [h2] at h; simp at h
  refine ⟨?_, mk_sched_event_read_error_session env conn th hsess hret hst, ?_,
    _, mk_sched_event_read_trace env conn th, ?_⟩
  · rw [mk_sched_event_read_ret, if_neg hnf, if_pos ⟨hret, hst⟩]
  · rw [mk_sched_event_read_worker, if_neg (by simp [hst]), hw]
  · cases hg : mk_http_session_get conn.event.fd th <;>
      cases hc : env.session_create_ok <;>
      cases hre : env.request_list_empty <;>
      by_cases hs : env.channel_streams = 0 <;>
      simp [hg, hc] at hnf <;>
      simp [event_read_steps, hc, hret, hst, hre, hs, List.getLast?_append,
        List.getLast?_cons_cons]

/-- C17 on a worker that indexes descriptors 3 and 7: the first read on
descriptor 3, which has no session yet, ends in a parser error with an error
response queued. -/
theorem event_read_parser_error_witness :
    (mk_sched_event_read (progress_env mk_http_parser_status.MK_HTTP_PARSER_ERROR 1)
        (pending_conn 3 0) session_thread).1 = -1 ∧
    mk_http_session_get 3
      (mk_sched_event_read (progress_env mk_http_parser_status.MK_HTTP_PARSER_ERROR 1)
        (pending_conn 3 0) session_thread).2 = none :=
  ⟨(event_read_parser_error (progress_env mk_http_parser_status.MK_HTTP_PARSER_ERROR 1)
      (pending_conn 3 0) session_thread two_conn_worker rfl (by decide) (by decide) rfl).1,
   (event_read_parser_error (progress_env mk_http_parser_status.MK_HTTP_PARSER_ERROR 1)
      (pending_conn 3 0) session_thread two_conn_worker rfl (by decide) (by decide) rfl).2.1⟩

/-- C18. When the socket has a session (or one can be created) and the read
handler answers `-EAGAIN`, `mk_sched_event_read` returns 1 and leaves the
worker entry (index, counters, event registrations) as it was; its steps are
the read handler call, after the session creation if the socket had no
session: the parser is not run and nothing is dropped. -/
theorem event_read_would_block (env : read_event_env) (conn : mk_sched_conn)
    (th : sched_thread) (s : sched_list_node) (hw : th.worker_sched_node = some s)
    (hsess : mk_http_session_get conn.event.fd th ≠ none ∨ env.session_create_ok = true)
    (hret : env.handler_read_ret = -EAGAIN) :
    (mk_sched_event_read env conn th).1 = 1 ∧
    (mk_sched_event_read env conn th).2.worker_sched_node = some s ∧
    ∃ steps, (mk_sched_event_read env conn th).2.trace = th.trace ++ steps ∧
      (steps = [sched_step.mk_http_handler_read conn.event.fd] ∨
       steps = [sched_step.mk_http_session_create conn.event.fd,
                sched_step.mk_http_handler_read conn.event.fd]) ∧
      sched_step.mk_http_parser_call conn.event.fd ∉ steps ∧
      sched_step.mk_http_session_remove conn.event.fd ∉ steps ∧
      sched_step.mk_socket_close conn.event.fd ∉ steps := by
  have hneg : ¬ 0 < env.handler_read_ret := by
    rw [hret]; unfold EAGAIN; omega
  have hnf : ¬ (mk_http_session_get conn.event.fd th = none ∧ env.session_create_ok = false) := by
    rintro ⟨h1, h2⟩
    rcases hsess with h | h
    · exact h h1
    · rw [h2] at h; simp at h
  refine ⟨?_, ?_, _, mk_sched_event_read_trace env conn th, ?_⟩
  · rw [mk_sched_event_read_ret, if_neg hnf, if_neg (fun h => hneg h.1), hret]
    simp [event_read_return]
  · rw [mk_sched_event_read_worker, if_neg (fun h => hneg h.2.1), hw]
  · cases hg : mk_http_session_get conn.event.fd th <;>
      cases hc : env.session_create_ok <;>
      simp [hg, hc] at hnf <;>
      simp [event_read_steps, hc, hneg]

/-- C18 on a worker that indexes descriptors 3 and 7: the read on descriptor 7
would block. -/
theorem event_read_would_block_witness :
    (mk_sched_event_read would_block_env (pending_conn 7 0) session_thread).1 = 1 ∧
    (mk_sched_event_read would_block_env (pending_conn 7 0) session_thread).2.worker_sched_node
      = some two_conn_worker :=
  ⟨(event_read_would_block would_block_env (pending_conn 7 0) session_thread two_conn_worker
      rfl (by decide) rfl).1,
   (event_read_would_block would_block_env (pending_conn 7 0) session_thread two_conn_worker
      rfl (by decide) rfl).2.1⟩

/-! ## `mk_sched_event_write` -/

/-- C19. For a connection that the worker's (ordered) index holds and whose
socket has a session: when the write handler returns `MK_CHANNEL_ERROR`,
`mk_sched_event_write` drops the connection and returns -1, so that afterwards
the lookup of its descriptor is absent and `closed_connections` has been
incremented once (by one, unless the counter wraps) while
`accepted_connections` is unchanged; when the write handler returns
`MK_CHANNEL_FLUSH` it returns 0 and leaves the worker entry, index and counters
included, as it was. -/
theorem event_write_error_and_flush
    (request_end : mk_sched_conn → sched_thread → Int × sched_thread)
    (conn : mk_sched_conn) (th : sched_thread) (s : sched_list_node)
    (hw : th.worker_sched_node = some s) (hord : rb_ordered s.rb_queue)
    (hidx : (mk_sched_get_connection (some s) conn.event.fd).1 = some conn)
    (hsess : mk_http_session_get conn.event.fd th ≠ none) :
    ((mk_sched_event_write mk_channel_ret.MK_CHANNEL_ERROR request_end conn th).1 = -1 ∧
      ∃ s1,
        (mk_sched_event_write mk_channel_ret.MK_CHANNEL_ERROR request_end conn
          th).2.worker_sched_node = some s1 ∧
        (mk_sched_get_connection (some s1) conn.event.fd).1 = none ∧
        s1.closed_connections = ull_incr s.closed_connections ∧
        (s.closed_connections + 1 < 2 ^ 64 →
          s1.closed_connections = s.closed_connections + 1) ∧
        s1.accepted_connections = s.accepted_connections) ∧
    ((mk_sched_event_write mk_channel_ret.MK_CHANNEL_FLUSH request_end conn th).1 = 0 ∧
      (mk_sched_event_write mk_channel_ret.MK_CHANNEL_FLUSH request_end conn
        th).2.worker_sched_node = some s) := by
  have h : get_connection_loop s.rb_queue conn.event.fd = some conn := hidx
  obtain ⟨cs, hcs⟩ := Option.ne_none_iff_exists'.1 hsess
  constructor
  · have e : mk_sched_event_write mk_channel_ret.MK_CHANNEL_ERROR request_end conn th =
        (-1, (mk_sched_drop_connection conn.event.fd
          { th with
            trace := th.trace ++ [sched_step.mk_http_handler_write conn.event.fd] }).2) := by
      simp [mk_sched_event_write, hcs]
    rw [e, mk_sched_drop_connection_found conn.event.fd
      { th with trace := th.trace ++ [sched_step.mk_http_handler_write conn.event.fd] }
      s conn hw h]
    refine ⟨rfl, _, rfl, ?_, rfl, ?_, rfl⟩
    · exact (rb_erase_lookup s.rb_queue conn.event.fd conn hord h).2.1
    · intro hlt
      show ull_incr s.closed_connections = s.closed_connections + 1
      unfold ull_incr ULLONG_MODULUS
      omega
  · have e : mk_sched_event_write mk_channel_ret.MK_CHANNEL_FLUSH request_end conn th =
        (0, { th with
              trace := th.trace ++ [sched_step.mk_http_handler_write conn.event.fd] }) := by
      simp [mk_sched_event_write, hcs]
    rw [e]
    exact ⟨rfl, hw⟩

/-- C19 on a worker that indexes descriptors 3 and 7, with a session on 7: a
write error on 7 drops it, a partial write leaves the worker as it was. -/
theorem event_write_error_and_flush_witness :
    ((mk_sched_event_write mk_channel_ret.MK_CHANNEL_ERROR request_end_idle (pending_conn 7 0)
        session_thread).1 = -1 ∧
      ∃ s1,
        (mk_sched_event_write mk_channel_ret.MK_CHANNEL_ERROR request_end_idle
          (pending_conn 7 0) session_thread).2.worker_sched_node = some s1 ∧
        (mk_sched_get_connection (some s1) (pending_conn 7 0).event.fd).1 = none ∧
        s1.closed_connections = ull_incr two_conn_worker.closed_connections ∧
        (two_conn_worker.closed_connections + 1 < 2 ^ 64 →
          s1.closed_connections = two_conn_worker.closed_connections + 1) ∧
        s1.accepted_connections = two_conn_worker.accepted_connections) ∧
    ((mk_sched_event_write mk_channel_ret.MK_CHANNEL_FLUSH request_end_idle (pending_conn 7 0)
        session_thread).1 = 0 ∧
      (mk_sched_event_write mk_channel_ret.MK_CHANNEL_FLUSH request_end_idle (pending_conn 7 0)
        session_thread).2.worker_sched_node = some two_conn_worker) :=
  event_write_error_and_flush request_end_idle (pending_conn 7 0) session_thread
    two_conn_worker rfl (by decide) (by decide) (by decide)

/-! ## Ghost connections and the `NULL` worker handle -/

/-- The drop primitive on a thread whose worker handle is `NULL`: the session is
removed and `mk_sched_get_connection(NULL, socket)` closes the socket. -/
theorem mk_sched_drop_connection_null (socket : Int) (th : sched_thread)
    (hnull : th.worker_sched_node = none) :
    mk_sched_drop_connection socket th =
      (0,
       { worker_sched_node := none,
         cs_list := th.cs_list.filter (fun cs => decide (cs.socket ≠ socket)),
         cs_incomplete := th.cs_incomplete.filter (fun cs => decide (cs.socket ≠ socket)),
         trace := th.trace ++
           [sched_step.mk_http_session_remove socket, sched_step.mk_socket_close socket] }) := by
  simp [mk_sched_drop_connection, mk_http_session_remove, mk_sched_get_thread_conf,
    mk_sched_get_connection, hnull]

/-- C21. On a worker thread, for a connection whose descriptor has no session,
`mk_sched_event_write` returns 0 and does what `mk_sched_drop_connection` does,
whatever the write handler would answer: the write handler is not among its
steps, and the socket is closed exactly when the descriptor is found in the
worker's index, and then once. -/
theorem event_write_ghost (ret : mk_channel_ret)
    (request_end : mk_sched_conn → sched_thread → Int × sched_thread)
    (conn : mk_sched_conn) (th : sched_thread) (s : sched_list_node)
    (hw : th.worker_sched_node = some s)
    (hghost : mk_http_session_get conn.event.fd th = none) :
    mk_sched_event_write ret request_end conn th
      = (0, (mk_sched_drop_connection conn.event.fd th).2) ∧
    ∃ steps, (mk_sched_event_write ret request_end conn th).2.trace = th.trace ++ steps ∧
      sched_step.mk_http_handler_write conn.event.fd ∉ steps ∧
      (sched_step.mk_socket_close conn.event.fd ∈ steps ↔
        (mk_sched_get_connection (some s) conn.event.fd).1 ≠ none) ∧
      steps.count (sched_step.mk_socket_close conn.event.fd) ≤ 1 := by
  have e : mk_sched_event_write ret request_end conn th
      = (0, (mk_sched_drop_connection conn.event.fd th).2) := by
    simp [mk_sched_event_write, hghost]
  refine ⟨e, ?_⟩
  rw [e]
  cases h : get_connection_loop s.rb_queue conn.event.fd with
  | none =>
    rw [mk_sched_drop_connection_absent conn.event.fd th s hw h]
    refine ⟨[sched_step.mk_http_session_remove conn.event.fd,
      sched_step.mk_sched_get_connection conn.event.fd], rfl, by simp, ?_, by simp⟩
    simp [mk_sched_get_connection, h]
  | some sc =>
    rw [mk_sched_drop_connection_found conn.event.fd th s sc hw h]
    refine ⟨[sched_step.mk_http_session_remove conn.event.fd,
      sched_step.mk_sched_get_connection conn.event.fd,
      sched_step.mk_event_del conn.event.fd, sched_step.mk_sched_get_connection conn.event.fd,
      sched_step.mk_plugin_stage_run_50 conn.event.fd, sched_step.closed_connections_incr,
      sched_step.rb_erase conn.event.fd, sched_step.mk_mem_free conn.event.fd,
      sched_step.mk_socket_close conn.event.fd], rfl, by simp, ?_, by simp [List.count_cons]⟩
    simp [mk_sched_get_connection, h]

/-- C21 on a worker that indexes descriptors 3 and 7, where only 7 has a
session: a write event for a record with descriptor 4, which is not indexed,
closes nothing. -/
theorem event_write_ghost_witness :
    mk_sched_event_write mk_channel_ret.MK_CHANNEL_DONE request_end_idle (pending_conn 4 0)
        session_thread
      = (0, (mk_sched_drop_connection 4 session_thread).2) ∧
    (mk_sched_event_write mk_channel_ret.MK_CHANNEL_DONE request_end_idle (pending_conn 4 0)
        session_thread).2.trace
      = [sched_step.mk_http_session_remove 4, sched_step.mk_sched_get_connection 4] :=
  ⟨(event_write_ghost mk_channel_ret.MK_CHANNEL_DONE request_end_idle (pending_conn 4 0)
      session_thread two_conn_worker rfl (by decide)).1,
   by decide⟩

/-- C24. A call `mk_sched_get_connection(NULL, f)` returns absent and closes
the socket `f`; so `mk_sched_drop_connection(f)` on a thread whose worker
handle is `NULL` returns 0, removes the session of `f`, closes `f`, leaves the
worker handle `NULL` (no index or counter is touched) and runs no stage-50
hook. With a worker entry, `mk_sched_get_connection` only looks the descriptor
up: its single step is the lookup, and no socket is closed. -/
theorem get_connection_null_worker (f : Int) (th : sched_thread)
    (hnull : th.worker_sched_node = none) :
    mk_sched_get_connection none f = (none, [sched_step.mk_socket_close f]) ∧
    (mk_sched_drop_connection f th).1 = 0 ∧
    (mk_sched_drop_connection f th).2.worker_sched_node = none ∧
    mk_http_session_get f (mk_sched_drop_connection f th).2 = none ∧
    (mk_sched_drop_connection f th).2.trace = th.trace ++
      [sched_step.mk_http_session_remove f, sched_step.mk_socket_close f] ∧
    sched_step.mk_plugin_stage_run_50 f ∉
      [sched_step.mk_http_session_remove f, sched_step.mk_socket_close f] ∧
    ∀ (s : sched_list_node) (g : Int),
      mk_sched_get_connection (some s) g
        = (get_connection_loop s.rb_queue g, [sched_step.mk_sched_get_connection g]) ∧
      sched_step.mk_socket_close g ∉ (mk_sched_get_connection (some s) g).2 := by
  rw [mk_sched_drop_connection_null f th hnull]
  refine ⟨rfl, rfl, rfl, ?_, rfl, by simp, fun s g => ⟨rfl, by simp [mk_sched_get_connection]⟩⟩
  have := mk_http_session_get_remove f th
  unfold mk_http_session_get mk_http_session_remove at this
  unfold mk_http_session_get
  exact this

/-- C24 on a thread without worker entry that holds a session for socket 9. -/
theorem get_connection_null_worker_witness :
    (mk_sched_drop_connection 9 no_worker_thread).1 = 0 ∧
    (mk_sched_drop_connection 9 no_worker_thread).2
      = { worker_sched_node := none, cs_list := [], cs_incomplete := [],
          trace := [sched_step.mk_http_session_remove 9, sched_step.mk_socket_close 9] } :=
  ⟨(get_connection_null_worker 9 no_worker_thread rfl).2.1, by decide⟩

/-! ## The balancer stays inside the worker table -/

/-- C23. On a table of W >= 1 workers with arbitrary counter values (the live
count is the unsigned difference modulo 2 ^ 64, also when closed exceeds
accepted), `_next_target` returns -1 or an index `t` with `0 <= t < W`, and
`mk_sched_next_target` accordingly returns `NULL` or the entry with such an
index. Both only read the table: the embedding has no table to return. -/
theorem next_target_in_table (sched_list : List sched_list_node) (server_capacity : Nat)
    (hW : 1 ≤ sched_list.length) :
    (_next_target sched_list server_capacity = -1 ∨
      ∃ t : Nat, _next_target sched_list server_capacity = (t : Int) ∧
        t < sched_list.length) ∧
    (mk_sched_next_target sched_list server_capacity = none ∨
      ∃ t : Nat, mk_sched_next_target sched_list server_capacity = some t ∧
        t < sched_list.length ∧ ∃ st, sched_list[t]? = some st) := by
  cases sched_list with
  | nil => simp at hW
  | cons s0 rest =>
    rcases next_target_spec s0 rest server_capacity with
      ⟨hm, _, _⟩ | ⟨q1, st, q2, e, hr, _, _, _⟩
    · exact ⟨Or.inl hm, Or.inl ((mk_sched_next_target_eq_none _ _).2 hm)⟩
    · have hlt : q1.length < (s0 :: rest).length := by
        rw [e]; simp
      refine ⟨Or.inr ⟨q1.length, hr, hlt⟩, Or.inr ⟨q1.length, ?_, hlt, st, ?_⟩⟩
      · unfold mk_sched_next_target
        simp [hr]
      · rw [e, List.getElem?_append_right (le_refl _)]
        simp

/-- C23 on a table whose worker 0 has closed more connections than it accepted
(its live count wraps to 2 ^ 64 - 1) and whose worker 1 has one live
connection: worker 1 is returned. -/
theorem next_target_in_table_witness :
    live_connections (worker_with 0 1) = 2 ^ 64 - 1 ∧
    mk_sched_next_target [worker_with 0 1, worker_with 1 0] 4 = some 1 ∧
    ((_next_target [worker_with 0 1, worker_with 1 0] 4 = -1 ∨
      ∃ t : Nat, _next_target [worker_with 0 1, worker_with 1 0] 4 = (t : Int) ∧
        t < [worker_with 0 1, worker_with 1 0].length) ∧
    (mk_sched_next_target [worker_with 0 1, worker_with 1 0] 4 = none ∨
      ∃ t : Nat, mk_sched_next_target [worker_with 0 1, worker_with 1 0] 4 = some t ∧
        t < [worker_with 0 1, worker_with 1 0].length ∧
        ∃ st, [worker_with 0 1, worker_with 1 0][t]? = some st)) :=
  ⟨by decide, by decide,
   next_target_in_table [worker_with 0 1, worker_with 1 0] 4 (by decide)⟩

/-! ## The incoming queue is never unlinked -/

/-- No path of `mk_sched_remove_client` writes the incoming queue. -/
theorem mk_sched_remove_client_incoming_queue (sched : sched_list_node) (f : Int) :
    (mk_sched_remove_client sched f).2.1.incoming_queue = sched.incoming_queue := by
  cases h : get_connection_loop sched.rb_queue f with
  | none => rw [mk_sched_remove_client_absent sched f h]
  | some sc => rw [mk_sched_remove_client_found sched f sc h]

/-! ## The incoming queue on the entries the scheduler builds -/

/-- A returning `mk_sched_add_connection` does not write the incoming queue. -/
theorem mk_sched_add_connection_incoming_queue (ret : mk_plugin_ret) (malloc_ok : Bool)
    (now f : Int) (s : sched_list_node) (r : Option mk_sched_conn) (s1 : sched_list_node)
    (steps : List sched_step)
    (h : mk_sched_add_connection ret malloc_ok now f s = add_outcome.returned r s1 steps) :
    s1.incoming_queue = s.incoming_queue := by
  unfold mk_sched_add_connection at h
  split at h
  · simp only [add_outcome.returned.injEq] at h
    obtain ⟨_, rfl, _⟩ := h
    rfl
  · split at h
    · simp only [add_outcome.returned.injEq] at h
      obtain ⟨_, rfl, _⟩ := h
      rfl
    · simp only [] at h
      split at h
      · simp at h
      · simp only [add_outcome.returned.injEq] at h
        obtain ⟨_, rfl, _⟩ := h
        rfl

/-- On every entry the scheduler builds the incoming queue is empty. -/
theorem worker_built_incoming_queue (s : sched_list_node) (h : worker_built s) :
    s.incoming_queue = [] := by
  induction h with
  | register wid => rfl
  | add_connection ret malloc_ok now fd s s1 r steps _ hadd ih =>
    rw [mk_sched_add_connection_incoming_queue ret malloc_ok now fd s r s1 steps hadd, ih]
  | remove_client fd s _ ih => rw [mk_sched_remove_client_incoming_queue, ih]
  | other_fields s s1 _ _ hq ih => rw [hq, ih]

/-- The worker entry `mk_sched_drop_connection` leaves is the one it found or the
one `mk_sched_remove_client` leaves. -/
theorem mk_sched_drop_connection_worker (f : Int) (th : sched_thread) (s : sched_list_node)
    (hw : th.worker_sched_node = some s) :
    (mk_sched_drop_connection f th).2.worker_sched_node = some s ∨
    (mk_sched_drop_connection f th).2.worker_sched_node
      = some (mk_sched_remove_client s f).2.1 := by
  cases h : get_connection_loop s.rb_queue f with
  | none =>
    rw [mk_sched_drop_connection_absent f th s hw h]
    exact Or.inl rfl
  | some sc =>
    rw [mk_sched_drop_connection_found f th s sc hw h, mk_sched_remove_client_found s f sc h]
    exact Or.inr rfl

theorem mk_sched_drop_connection_built (f : Int) (th : sched_thread) (s : sched_list_node)
    (hw : th.worker_sched_node = some s) (hb : worker_built s) :
    ∃ s1, (mk_sched_drop_connection f th).2.worker_sched_node = some s1 ∧ worker_built s1 := by
  rcases mk_sched_drop_connection_worker f th s hw with h | h
  · exact ⟨s, h, hb⟩
  · exact ⟨_, h, worker_built.remove_client f s hb⟩

theorem drop_connections_built (fds : List Int) :
    ∀ (th : sched_thread) (s : sched_list_node), th.worker_sched_node = some s →
      worker_built s →
      ∃ s1, (drop_connections fds th).worker_sched_node = some s1 ∧ worker_built s1 := by
  induction fds with
  | nil => intro th s hw hb; exact ⟨s, hw, hb⟩
  | cons f rest ih =>
    intro th s hw hb
    obtain ⟨s1, hw1, hb1⟩ := mk_sched_drop_connection_built f th s hw hb
    exact ih _ s1 hw1 hb1

theorem mk_sched_check_timeouts_built (cfg : mk_server_config) (now : Int)
    (sched : sched_list_node) (th : sched_thread) (s : sched_list_node)
    (hw : th.worker_sched_node = some s) (hb : worker_built s) :
    ∃ s1, (mk_sched_check_timeouts cfg now sched th).2.worker_sched_node = some s1 ∧
      worker_built s1 := by
  unfold mk_sched_check_timeouts
  simp only []
  rw [check_timeouts_sessions_eq, check_timeouts_incoming_eq]
  obtain ⟨s1, hw1, hb1⟩ := drop_connections_built _ th s hw hb
  exact drop_connections_built _ _ s1 hw1 hb1

/-- The incoming-queue predicate on an entry whose queue is empty. -/
theorem incoming_queue_invariant_of_empty (s : sched_list_node) (h : s.incoming_queue = []) :
    incoming_queue_invariant s ∧ ∀ f, ∀ c ∈ s.incoming_queue, c.event.fd ≠ f := by
  unfold incoming_queue_invariant
  rw [h]
  simp

/-- Removing a descriptor that no queued record carries keeps the
incoming-queue predicate, on any worker entry with an ordered index. -/
theorem mk_sched_remove_client_keeps_queue (s : sched_list_node) (f : Int)
    (hord : rb_ordered s.rb_queue) (hinv : incoming_queue_invariant s)
    (hf : ∀ c ∈ s.incoming_queue, c.event.fd ≠ f) :
    incoming_queue_invariant (mk_sched_remove_client s f).2.1 := by
  cases h : get_connection_loop s.rb_queue f with
  | none =>
    rw [mk_sched_remove_client_absent s f h]
    exact hinv
  | some sc =>
    rw [mk_sched_remove_client_found s f sc h]
    intro c hc
    show get_connection_loop (rb_erase sc.event.fd s.rb_queue) c.event.fd = some c
    rw [(rb_erase_lookup s.rb_queue f sc hord h).2.2 c.event.fd (hf c hc)]
    exact hinv c hc

/-- The worker entry `mk_sched_drop_connection` leaves has the incoming queue
it found. -/
theorem mk_sched_drop_connection_incoming_queue (f : Int) (th : sched_thread)
    (s : sched_list_node) (hw : th.worker_sched_node = some s) :
    ∃ s1, (mk_sched_drop_connection f th).2.worker_sched_node = some s1 ∧
      s1.incoming_queue = s.incoming_queue := by
  rcases mk_sched_drop_connection_worker f th s hw with h | h
  · exact ⟨s, h, rfl⟩
  · exact ⟨_, h, mk_sched_remove_client_incoming_queue s f⟩

theorem drop_connections_incoming_queue (fds : List Int) :
    ∀ (th : sched_thread) (s : sched_list_node), th.worker_sched_node = some s →
      ∃ s1, (drop_connections fds th).worker_sched_node = some s1 ∧
        s1.incoming_queue = s.incoming_queue := by
  induction fds with
  | nil => intro th s hw; exact ⟨s, hw, rfl⟩
  | cons f rest ih =>
    intro th s hw
    obtain ⟨s1, hw1, hq1⟩ := mk_sched_drop_connection_incoming_queue f th s hw
    obtain ⟨s2, hw2, hq2⟩ := ih _ s1 hw1
    exact ⟨s2, hw2, by rw [hq2, hq1]⟩

theorem mk_sched_check_timeouts_incoming_queue (cfg : mk_server_config) (now : Int)
    (sched : sched_list_node) (th : sched_thread) (s : sched_list_node)
    (hw : th.worker_sched_node = some s) :
    ∃ s1, (mk_sched_check_timeouts cfg now sched th).2.worker_sched_node = some s1 ∧
      s1.incoming_queue = s.incoming_queue := by
  unfold mk_sched_check_timeouts
  simp only []
  rw [check_timeouts_sessions_eq, check_timeouts_incoming_eq]
  obtain ⟨s1, hw1, hq1⟩ := drop_connections_incoming_queue _ th s hw
  obtain ⟨s2, hw2, hq2⟩ := drop_connections_incoming_queue _ _ s1 hw1
  exact ⟨s2, hw2, by rw [hq2, hq1]⟩

end MkSched
